import Mathlib

/-!
# check_fever_app: radiometric acquisition and normalisation

A shallow embedding of `src/check_fever_app/check_fever_app.cpp`.

* C++ `double` arithmetic written in the source (`255./diff`, `value*scale_factor`,
  `temp/scale_factor`, `x/img_scale_fact`) is IEEE-754 binary64 round-to-nearest-even,
  modelled on the rationals by `fl64`.
* `cv::Mat` is a record of dimensions, type code and row-major samples; the OpenCV
  operations the program calls follow their contracts (`saturate_cast`, `convertTo`,
  saturating `-=`), and the scaling kernel behind `Mat *= double` on 16-bit samples
  works in binary32, modelled by `fl32`.
* The sensor driver and the window system are oracles: what they return is an
  input of the model, what the program asks of them is logged in the state.
-/

namespace CheckFever

/-! ## Binary64 arithmetic -/

/-- Round to the nearest integer, ties to even (the default IEEE rounding, also `cvRound`). -/
def roundHalfEven (q : ℚ) : Int :=
  let f := ⌊q⌋
  let r := q - f
  if r < 1/2 then f
  else if 1/2 < r then f + 1
  else if f % 2 = 0 then f else f + 1

/-- Rounding of a rational to binary64 (53-bit significand, round-to-nearest-even,
gradual underflow below `2^-1022`). Overflow is not modelled: every magnitude the
program computes is far below `2^1024`. -/
def fl64 (q : ℚ) : ℚ :=
  if q = 0 then 0
  else
    let e := max (Int.log 2 |q|) (-1022)
    let ulp : ℚ := 2 ^ (e - 52)
    roundHalfEven (q / ulp) * ulp

/-- Rounding of a rational to binary32 (24-bit significand, round-to-nearest-even,
gradual underflow below `2^-126`); overflow is not modelled. -/
def fl32 (q : ℚ) : ℚ :=
  if q = 0 then 0
  else
    let e := max (Int.log 2 |q|) (-126)
    let ulp : ℚ := 2 ^ (e - 23)
    roundHalfEven (q / ulp) * ulp

/-- Conversion of a `double` to an integer type truncates toward zero. -/
def truncToInt (q : ℚ) : Int := if 0 ≤ q then ⌊q⌋ else ⌈q⌉

/-- The cast `static_cast<uint16_t>(double)` (lines 89-92): truncation, kept in 16 bits. -/
def castU16 (q : ℚ) : Nat := (truncToInt q % 65536).toNat

/-- The values a `double` takes in the normaliser: a finite number, `+inf` (from `255./0.`)
or NaN (from `0 * inf`). -/
inductive Dbl where
  | fin (q : ℚ)
  | inf
  | nan
  deriving DecidableEq

/-- Whether a `double` is a finite number. -/
def Dbl.isFinite : Dbl → Bool
  | Dbl.fin _ => true
  | _ => false

/-- The scaled sample inside `Mat *= s` on 16-bit samples. The kernel of this conversion
works in `float`: the scale is cast to binary32, the sample is converted exactly, and the
product is rounded to binary32; `inf * 0` is NaN. -/
def Dbl.scaleSample (s : Dbl) (v : Nat) : Dbl :=
  match s with
  | Dbl.fin q => Dbl.fin (fl32 ((v : ℚ) * fl32 q))
  | Dbl.inf => if v = 0 then Dbl.nan else Dbl.inf
  | Dbl.nan => Dbl.nan

/-- What the float-to-integer conversion inside `saturate_cast<ushort>` yields for the two
non-finite inputs. C++ leaves it undefined and it differs between instruction sets, so it
is a parameter of the model. -/
structure Platform where
  nanToU16 : Nat
  infToU16 : Nat

/-- The conversion `cv::saturate_cast<ushort>(int)`: clamp into `[0, 65535]`. -/
def saturate_cast_u16 (z : Int) : Nat := (max 0 (min z 65535)).toNat

/-- The conversion `cv::saturate_cast<ushort>` of a floating-point value: round half to
even, then clamp. -/
def Dbl.toU16 (pf : Platform) : Dbl → Nat
  | Dbl.fin q => saturate_cast_u16 (roundHalfEven q)
  | Dbl.inf => pf.infToU16
  | Dbl.nan => pf.nanToU16

/-! ## Calibration (lines 36, 84-92, 305) -/

/-- Line 36: `double scale_factor = 0.0092`, the binary64 nearest to 0.0092. -/
def scale_factor : ℚ := fl64 (92 / 10000)

/-- Line 25: `double img_scale_fact = 3.0`. -/
def img_scale_fact : ℚ := 3

/-- Line 305: `double temp = value*scale_factor`. -/
def temperatureOf (value : Nat) : ℚ := fl64 (value * scale_factor)

/-- Lines 89-92: `static_cast<uint16_t>(temp/scale_factor)`. -/
def rawOf (temp : ℚ) : Nat := castU16 (fl64 (temp / scale_factor))

/-- Line 89, from `min_norm_temp = 30.0f`. -/
def min_norm_raw : Nat := rawOf 30

/-- Line 90, from `warn_temp = 37.0f`. -/
def warn_raw : Nat := rawOf 37

/-- Line 91, from `fever_temp = 37.5f`. -/
def fever_raw : Nat := rawOf (75 / 2)

/-- Line 92, from `max_temp = 42.0f`. -/
def max_raw : Nat := rawOf 42

/-! ## Matrices -/

/-- OpenCV depth code of unsigned 8-bit samples. -/
def CV_8U : Nat := 0

/-- OpenCV depth code of unsigned 16-bit samples. -/
def CV_16U : Nat := 2

/-- Depth part of a type code. -/
def CV_MAT_DEPTH (t : Nat) : Nat := t % 8

/-- Channel count of a type code. -/
def CV_MAT_CN (t : Nat) : Nat := t / 8 + 1

/-- Type code of a depth and a channel count. -/
def CV_MAKETYPE (depth cn : Nat) : Nat := depth % 8 + (cn - 1) * 8

/-- One channel of unsigned 8-bit samples. -/
def CV_8UC1 : Nat := CV_MAKETYPE CV_8U 1

/-- Three channels of unsigned 8-bit samples. -/
def CV_8UC3 : Nat := CV_MAKETYPE CV_8U 3

/-- One channel of unsigned 16-bit samples. -/
def CV_16UC1 : Nat := CV_MAKETYPE CV_16U 1

/-- A dense matrix: `rows x cols`, a type code, and the samples in row-major order. -/
structure Mat where
  rows : Nat
  cols : Nat
  type : Nat
  data : List Nat
  deriving DecidableEq

/-- The default-constructed `cv::Mat` (lines 22-23). -/
def Mat.empty : Mat := { rows := 0, cols := 0, type := 0, data := [] }

/-- The constructor `cv::Mat(rows, cols, type)`; the fresh buffer is taken as zeros. -/
def Mat.create (rows cols type : Nat) : Mat :=
  { rows := rows, cols := cols, type := type,
    data := List.replicate (rows * cols * CV_MAT_CN type) 0 }

/-- A single-channel matrix whose buffer holds exactly `rows * cols` samples. -/
def Mat.WellFormed (m : Mat) : Prop := m.data.length = m.rows * m.cols

instance (m : Mat) : Decidable m.WellFormed := by
  unfold Mat.WellFormed
  infer_instance

/-- Deep copy `src.copyTo(dst)`. -/
def Mat.copyTo (m : Mat) : Mat := m

/-- The statement `m -= s` on 16-bit unsigned samples: saturating subtraction. -/
def Mat.subScalar (m : Mat) (s : Nat) : Mat :=
  { m with data := m.data.map (fun (v : Nat) => saturate_cast_u16 ((v : Int) - s)) }

/-- The statement `m *= s` on 16-bit unsigned samples, which is `m.convertTo(m, -1, s)`:
every sample becomes `saturate_cast<ushort>` of the binary32 product of `Dbl.scaleSample`. -/
def Mat.mulScalar (pf : Platform) (m : Mat) (s : Dbl) : Mat :=
  { m with data := m.data.map (fun v => (s.scaleSample v).toU16 pf) }

/-- Saturation of an unsigned sample to the value range of a depth. -/
def saturateTo (depth : Nat) (v : Nat) : Nat :=
  if depth = 0 then min v 255
  else if depth = 1 then min v 127
  else if depth = 2 then min v 65535
  else if depth = 3 then min v 32767
  else v

/-- The call `m.convertTo(dst, rtype)`: only the depth of `rtype` is used, the channel
count stays that of the source; samples are saturated to the new depth. -/
def Mat.convertTo (m : Mat) (rtype : Nat) : Mat :=
  { m with
    type := CV_MAKETYPE (CV_MAT_DEPTH rtype) (CV_MAT_CN m.type)
    data := m.data.map (saturateTo (CV_MAT_DEPTH rtype)) }

/-- Element access `m.at<uint16_t>(r, c)`; `none` when the indices are outside the
matrix, where the C++ access is undefined. -/
def Mat.at? (m : Mat) (r c : Int) : Option Nat :=
  if 0 ≤ r ∧ r < m.rows ∧ 0 ≤ c ∧ c < m.cols then m.data[(r * m.cols + c).toNat]? else none

/-- The call `memcpy(dst, src, n * sizeof(uint16_t))` into a buffer of `dst.length`
samples (writes past the destination are outside the model). -/
def memcpy (dst src : List Nat) (n : Nat) : List Nat :=
  (src.take n ++ dst.drop (min n src.length)).take dst.length

/-! ## Frame normaliser (lines 268-285) -/

/-- Lines 274-275: `diff = double(max - min)`, `scale = 255./diff`. The operands are
promoted to `int`, so `diff` may be negative; `255./0.` is `+inf`. -/
def normalizeScale (min max : Nat) : Dbl :=
  let diff : Int := (max : Int) - min
  if diff = 0 then Dbl.inf else Dbl.fin (fl64 (255 / (diff : ℚ)))

/-- Lines 268-285. -/
def normalizeFrame (pf : Platform) (frame16 : Mat) (min max : Nat) : Mat :=
  let tmp16 := frame16.copyTo
  let scale := normalizeScale min max
  let tmp16 := tmp16.subScalar min
  let tmp16 := tmp16.mulScalar pf scale
  let frame8 := tmp16.convertTo CV_8UC1
  frame8

/-- Clamp of a rational into `[lo, hi]`. -/
def clampQ (x lo hi : ℚ) : ℚ := max lo (min x hi)

/-- Whether all samples of a matrix have one value. -/
def Mat.Uniform (m : Mat) : Prop := ∀ a ∈ m.data, ∀ b ∈ m.data, a = b

instance (m : Mat) : Decidable m.Uniform := by
  unfold Mat.Uniform
  infer_instance

/-! ## Driver, messages and program state -/

/-- Success value of the driver's result type `LEP_RESULT`; error codes are negative. -/
def LEP_OK : Int := 0

/-- Exit status `EXIT_SUCCESS`. -/
def EXIT_SUCCESS : Nat := 0

/-- Exit status `EXIT_FAILURE`. -/
def EXIT_FAILURE : Nat := 1

/-- Gain modes reported by the driver. -/
inductive LEP_SYS_GAIN_MODE_E where
  | LEP_SYS_GAIN_MODE_HIGH
  | LEP_SYS_GAIN_MODE_LOW
  | LEP_SYS_GAIN_MODE_AUTO
  deriving DecidableEq

/-- Requests the program sends to the sensor driver. -/
inductive DriverCall where
  | start
  | enableRadiometry (enable : Bool)
  | enableAgc (enable : Bool)
  | enableRgbOutput (enable : Bool)
  | setGainMode (mode : LEP_SYS_GAIN_MODE_E)
  | getGainMode
  | getLastFrame16
  | doFFC
  | doRadFFC
  deriving DecidableEq

/-- Lines written for the operator: `cout`, `cerr`, and the pointer report of line 307. -/
inductive Msg where
  | out (text : String)
  | err (text : String)
  | temp (temp : ℚ) (raw min max : Nat)
  deriving DecidableEq

/-- The globals of lines 19-36 and the locals of `main` that live across iterations,
with the logs of what the program asked of the driver, wrote, allocated and displayed. -/
structure State where
  close : Bool
  frame16 : Mat
  frameRGB : Mat
  min_raw16 : Nat
  max_raw16 : Nat
  initialized : Bool
  frameIdx : Nat
  dispFrame : Mat
  calls : List DriverCall
  log : List Msg
  allocs : List (Nat × Nat)
  shown : List (Mat × ℚ)

/-- State at program start: zero-initialised globals, empty logs. -/
def State.init : State :=
  { close := false, frame16 := Mat.empty, frameRGB := Mat.empty, min_raw16 := 0,
    max_raw16 := 0, initialized := false, frameIdx := 0, dispFrame := Mat.empty,
    calls := [], log := [], allocs := [], shown := [] }

/-- Answers of the driver to the start-up requests, in program order. -/
structure Startup where
  rgbRadiometry : Int
  rgbAgc : Int
  rgbOutput : Int
  setGain : Int
  getGain : Int
  gainMode : LEP_SYS_GAIN_MODE_E
  radiometry : Int

/-- What one loop iteration receives from outside: the driver's answer to
`getLastFrame16` (the frame pointer and the out-parameters `w`, `h`, `min`, `max` after
the call), the key `waitKey` returns, the driver's answer to a flat-field command should
one be sent, and a signal delivered during the iteration. -/
structure Poll where
  data : Option (List Nat)
  w : Nat
  h : Nat
  min : Nat
  max : Nat
  key : Int
  ffc : Int
  signal : Option Int

/-- Key code of a character, as `waitKey` reports it. -/
def keyCode (c : Char) : Int := c.toNat

/-- The value `cv::EVENT_MOUSEMOVE`. -/
def EVENT_MOUSEMOVE : Int := 0

/-! ## Handlers -/

/-- Lines 180-187. -/
def close_handler (st : State) (s : Int) : State :=
  if s = 2 then
    { st with log := st.log ++ [Msg.out "", Msg.out "Ctrl+C pressed..."], close := true }
  else st

/-- Lines 189-210; `res` is the driver's answer to the command, if one is sent. -/
def keyboard_handler (st : State) (key : Int) (res : Int) : State :=
  if key = keyCode 'f' then
    let st := { st with calls := st.calls ++ [DriverCall.doFFC] }
    if res = LEP_OK then { st with log := st.log ++ [Msg.out " * FFC completed"] } else st
  else if key = keyCode 'F' then
    let st := { st with calls := st.calls ++ [DriverCall.doRadFFC] }
    if res = LEP_OK then
      { st with log := st.log ++ [Msg.out " * Radiometry FFC completed"] }
    else st
  else st

/-- Lines 212-266, called with `enable`; the three answers of the driver are inputs. -/
def set_rgb_mode (st : State) (enable : Bool) (rRad rAgc rRgb : Int) : State :=
  let rgb_mode := enable
  let st := { st with calls := st.calls ++ [DriverCall.enableRadiometry (!rgb_mode)] }
  let st :=
    if rRad < 0 then { st with log := st.log ++ [Msg.err "Failed to set radiometry status"] }
    else if !rgb_mode then { st with log := st.log ++ [Msg.out " * Radiometry enabled "] }
    else { st with log := st.log ++ [Msg.out " * Radiometry disabled "] }
  let st := { st with calls := st.calls ++ [DriverCall.enableAgc rgb_mode] }
  let st :=
    if rAgc < 0 then { st with log := st.log ++ [Msg.err "Failed to set radiometry status"] }
    else if !rgb_mode then { st with log := st.log ++ [Msg.out " * AGC disabled "] }
    else { st with log := st.log ++ [Msg.out " * AGC enabled "] }
  let st := { st with calls := st.calls ++ [DriverCall.enableRgbOutput rgb_mode] }
  if rRgb < 0 then { st with log := st.log ++ [Msg.err "Failed to enable RGB output"] }
  else if rgb_mode then { st with log := st.log ++ [Msg.out " * RGB enabled "] }
  else { st with log := st.log ++ [Msg.out " * RGB disabled "] }

/-- Lines 293-294: `int raw_x = x/img_scale_fact`, a binary64 quotient truncated to `int`. -/
def rawCoord (x : Int) : Int := truncToInt (fl64 ((x : ℚ) / img_scale_fact))

/-- Lines 287-309. The function tests nothing: line 303 reads at `(raw_y, raw_x)` and
lines 305-307 report what was read. Inside `frame16` the read yields the sample. Outside,
the read is undefined in C++; what it does is the input `wild`: `none` when the access
faults, `some v` when it returns the value `v` found outside the frame, which is then
reported like any other. -/
def mouseCallBackFunc (st : State) (event x y : Int) (wild : Option Nat) : Option State :=
  if event = EVENT_MOUSEMOVE then
    let raw_x := rawCoord x
    let raw_y := rawCoord y
    let read :=
      match st.frame16.at? raw_y raw_x with
      | some v => some v
      | none => wild
    match read with
    | none => none
    | some value =>
      let temp := temperatureOf value
      some { st with log := st.log ++ [Msg.temp temp value st.min_raw16 st.max_raw16] }
  else some st

/-! ## Acquisition loop (lines 113-173) -/

/-- Lines 117-155 of one iteration: poll the driver, allocate on the first pass, declare
the local `dispFrame`, and, when a frame came, copy it, rescale it to 8 bits and hand it
to the display. The magnified image is recorded as the 8-bit image with the factor given
to `cv::resize`. -/
def acquire (pf : Platform) (st : State) (p : Poll) : State :=
  let st := { st with
    calls := st.calls ++ [DriverCall.getLastFrame16]
    min_raw16 := p.min
    max_raw16 := p.max }
  let st :=
    if !st.initialized then
      { st with
        frame16 := Mat.create p.h p.w CV_16UC1
        frameRGB := Mat.create p.h p.w CV_8UC3
        allocs := st.allocs ++ [(p.h, p.w)]
        initialized := true }
    else st
  let st := { st with dispFrame := Mat.empty }
  match p.data with
  | none => st
  | some data16 =>
    let frame16 := { st.frame16 with data := memcpy st.frame16.data data16 (p.w * p.h) }
    let rescaled := frame16.copyTo
    let scale := normalizeScale st.min_raw16 st.max_raw16
    let rescaled := rescaled.subScalar st.min_raw16
    let rescaled := rescaled.mulScalar pf scale
    let dispFrame := rescaled.convertTo CV_8UC3
    { st with
      frame16 := frame16
      dispFrame := dispFrame
      shown := st.shown ++ [(dispFrame, img_scale_fact)] }

/-- Lines 156-164: the key returned by `waitKey`. -/
def keyStep (st : State) (key : Int) (res : Int) : State :=
  let st := if key = keyCode 'q' ∨ key = keyCode 'Q' then { st with close := true } else st
  let st := keyboard_handler st key res
  { st with frameIdx := st.frameIdx + 1 }

/-- One pass through the body of `while(!close)`, lines 117-172. -/
def iteration (pf : Platform) (st : State) (p : Poll) : State :=
  let st := acquire pf st p
  let st :=
    match p.data with
    | none => st
    | some _ => keyStep st p.key p.ffc
  match p.signal with
  | none => st
  | some s => close_handler st s

/-- The loop `while(!close)` over the polls supplied; it stops consuming them once
`close` is set. -/
def loop (pf : Platform) : State → List Poll → State
  | st, [] => st
  | st, p :: ps => if st.close then st else loop pf (iteration pf st p) ps

/-- Result of a run: the exit status (`none` while the loop is still running when the
supplied polls are used up) and the final state. -/
structure Run where
  exitCode : Option Nat
  st : State

/-- Lines 51-94 of `main`, up to and including the request `enableRadiometry(true)` of
line 94 (whose answer `main` then tests). -/
def startup (d : Startup) : State :=
  let st := State.init
  let st := { st with log := st.log ++ [Msg.out "Check Fever App for Lepton3 on Nvidia Jetson"] }
  let st := { st with calls := st.calls ++ [DriverCall.start] }
  let st := set_rgb_mode st false d.rgbRadiometry d.rgbAgc d.rgbOutput
  let st := { st with
    calls := st.calls ++ [DriverCall.setGainMode LEP_SYS_GAIN_MODE_E.LEP_SYS_GAIN_MODE_HIGH] }
  let st :=
    if d.setGain = LEP_OK then
      let st := { st with calls := st.calls ++ [DriverCall.getGainMode] }
      if d.getGain = LEP_OK then
        let str :=
          match d.gainMode with
          | LEP_SYS_GAIN_MODE_E.LEP_SYS_GAIN_MODE_HIGH => "High"
          | LEP_SYS_GAIN_MODE_E.LEP_SYS_GAIN_MODE_LOW => "Low"
          | LEP_SYS_GAIN_MODE_E.LEP_SYS_GAIN_MODE_AUTO => "Auto"
        { st with log := st.log ++ [Msg.out (" * Gain mode: " ++ str)] }
      else st
    else st
  { st with calls := st.calls ++ [DriverCall.enableRadiometry true] }

/-- Lines 49-178. -/
def main (pf : Platform) (d : Startup) (polls : List Poll) : Run :=
  let st := startup d
  if d.radiometry ≠ LEP_OK then
    { exitCode := some EXIT_FAILURE
      st := { st with log := st.log ++ [Msg.err "Failed to enable radiometry!"] } }
  else
    let st := loop pf st polls
    { exitCode := if st.close then some EXIT_SUCCESS else none, st := st }

/-! ## Sample inputs -/

/-- A platform whose conversion saturates: NaN gives 0 and `+inf` gives 65535. -/
def Platform.saturating : Platform := { nanToU16 := 0, infToU16 := 65535 }

/-- A one-row frame holding the samples of the normalisation scenario. -/
def scenarioFrame : Mat := { rows := 1, cols := 3, type := CV_16UC1, data := [4000, 1000, 2500] }

/-- A one-pixel frame whose scaled sample falls just below a half-integer. -/
def nearTieFrame : Mat := { rows := 1, cols := 1, type := CV_16UC1, data := [26084] }

/-- A one-row frame with two different samples. -/
def stepFrame : Mat := { rows := 1, cols := 2, type := CV_16UC1, data := [1000, 1001] }

/-- A one-row flat frame. -/
def flatFrame : Mat := { rows := 1, cols := 2, type := CV_16UC1, data := [1000, 1000] }

/-- A poll in which the driver has no frame and reports the sensor's 160 x 120 size. -/
def emptyPoll : Poll :=
  { data := none, w := 160, h := 120, min := 0, max := 0, key := -1, ffc := 0, signal := none }

/-- A poll delivering a 2 x 2 frame while the operator presses `key`. -/
def framePoll (key : Int) : Poll :=
  { data := some [3000, 4000, 3500, 3200], w := 2, h := 2, min := 3000, max := 4000,
    key := key, ffc := 0, signal := none }

/-- A state holding a 2 x 2 frame with its reported range. -/
def sampleState : State :=
  { State.init with
    frame16 := { rows := 2, cols := 2, type := CV_16UC1, data := [3000, 4000, 3500, 3200] }
    initialized := true
    min_raw16 := 3000
    max_raw16 := 4000 }

/-- A driver that accepts every start-up request. -/
def okStartup : Startup :=
  { rgbRadiometry := 0, rgbAgc := 0, rgbOutput := 0, setGain := 0, getGain := 0,
    gainMode := LEP_SYS_GAIN_MODE_E.LEP_SYS_GAIN_MODE_HIGH, radiometry := 0 }

/-- A driver that accepts everything except the explicit radiometry request of line 94. -/
def failStartup : Startup := { okStartup with radiometry := -1 }

/-! # Lemmas -/

/-! ## Rounding lemmas -/

theorem roundHalfEven_sub_le (q : ℚ) : |(roundHalfEven q : ℚ) - q| ≤ 1/2 := by
  unfold roundHalfEven
  have h1 := Int.floor_le q
  have h2 := Int.lt_floor_add_one q
  simp only
  split_ifs with a b c
  · rw [abs_le]; constructor <;> linarith
  · push_cast; rw [abs_le]; constructor <;> linarith
  · rw [abs_le]; constructor <;> linarith
  · push_cast; rw [abs_le]; constructor <;> linarith

theorem roundHalfEven_intCast (n : ℤ) : roundHalfEven (n : ℚ) = n := by
  unfold roundHalfEven
  simp

theorem fl64_err (q : ℚ) (h : (2 : ℚ) ^ (-1022 : ℤ) ≤ |q|) :
    |fl64 q - q| ≤ |q| * 2 ^ (-53 : ℤ) := by
  have hpos : 0 < |q| := lt_of_lt_of_le (by positivity) h
  have hq : q ≠ 0 := abs_pos.mp hpos
  have he : (-1022 : ℤ) ≤ Int.log 2 |q| :=
    (Int.zpow_le_iff_le_log (by norm_num) hpos).mp (by exact_mod_cast h)
  have hlog : (2 : ℚ) ^ (Int.log 2 |q|) ≤ |q| := by
    have := Int.zpow_log_le_self (b := 2) (by norm_num) hpos
    exact_mod_cast this
  unfold fl64
  rw [if_neg hq]
  simp only [max_eq_left he]
  set e := Int.log 2 |q| with he_def
  have hulp : (0 : ℚ) < 2 ^ (e - 52) := by positivity
  have hr := roundHalfEven_sub_le (q / 2 ^ (e - 52))
  have key : (roundHalfEven (q / 2 ^ (e - 52)) : ℚ) * 2 ^ (e - 52) - q
      = ((roundHalfEven (q / 2 ^ (e - 52)) : ℚ) - q / 2 ^ (e - 52)) * 2 ^ (e - 52) := by
    field_simp
  rw [key, abs_mul, abs_of_pos hulp]
  have h53 : (2 : ℚ) ^ (e - 52) = 2 ^ e * 2 ^ (-53 : ℤ) * 2 := by
    rw [show e - 52 = e + (-53) + 1 by ring, zpow_add₀ (by norm_num), zpow_add₀ (by norm_num)]
    norm_num
  calc |(roundHalfEven (q / 2 ^ (e - 52)) : ℚ) - q / 2 ^ (e - 52)| * 2 ^ (e - 52)
      ≤ 1 / 2 * 2 ^ (e - 52) := by gcongr
    _ = 2 ^ e * 2 ^ (-53 : ℤ) := by rw [h53]; ring
    _ ≤ |q| * 2 ^ (-53 : ℤ) := by gcongr

theorem two_zpow_neg53 : (2 : ℚ) ^ (-53 : ℤ) = 1 / 9007199254740992 := by
  norm_num [zpow_neg]

theorem two_zpow_neg1022_le : (2 : ℚ) ^ (-1022 : ℤ) ≤ 1 / 1024 := by
  calc (2 : ℚ) ^ (-1022 : ℤ) ≤ 2 ^ (-10 : ℤ) := by
        apply zpow_le_zpow_right₀ <;> norm_num
    _ = 1 / 1024 := by norm_num [zpow_neg]

theorem fl64_near (q : ℚ) (hq : (1 : ℚ) / 1024 ≤ q) :
    q * (1 - 1 / 9007199254740992) ≤ fl64 q ∧ fl64 q ≤ q * (1 + 1 / 9007199254740992) := by
  have hpos : 0 < q := lt_of_lt_of_le (by norm_num) hq
  have h := fl64_err q (by rw [abs_of_pos hpos]; exact le_trans two_zpow_neg1022_le hq)
  rw [abs_of_pos hpos, two_zpow_neg53, abs_le] at h
  constructor <;> linarith [h.1, h.2]

theorem scale_factor_bounds : (1 : ℚ) / 128 < scale_factor ∧ scale_factor < 1 / 64 := by
  obtain ⟨h1, h2⟩ := fl64_near (92 / 10000) (by norm_num)
  unfold scale_factor
  constructor
  · exact lt_of_lt_of_le (by norm_num) h1
  · exact lt_of_le_of_lt h2 (by norm_num)

/-! ## Frame normaliser -/

theorem saturate_cast_u16_sub (s m : Nat) (hs : s ≤ 65535) :
    saturate_cast_u16 ((s : Int) - m) = s - m := by
  unfold saturate_cast_u16
  omega

/-- Rounding a finite product and saturating it to 16 and then to 8 bits is rounding its
clamp into `[0, 255]`. -/
theorem saturate_round_eq (q : ℚ) :
    (saturateTo 0 (saturate_cast_u16 (roundHalfEven q)) : Int)
      = roundHalfEven (clampQ q 0 255) ∧
    saturateTo 0 (saturate_cast_u16 (roundHalfEven q)) ≤ 255 := by
  have hn := roundHalfEven_sub_le q
  rw [abs_le] at hn
  have h255 : roundHalfEven ((255 : ℤ) : ℚ) = 255 := roundHalfEven_intCast 255
  have h0 : roundHalfEven ((0 : ℤ) : ℚ) = 0 := roundHalfEven_intCast 0
  push_cast at h255 h0
  unfold saturateTo saturate_cast_u16 clampQ
  simp only [if_true]
  rcases le_or_lt q 0 with hq | hq
  · have hle : roundHalfEven q ≤ 0 := by
      have : (roundHalfEven q : ℚ) < 1 := by linarith
      have : roundHalfEven q < 1 := by exact_mod_cast this
      omega
    rw [min_eq_left (by linarith : q ≤ 255), max_eq_left hq, h0]
    omega
  · rcases le_or_lt 255 q with hq2 | hq2
    · have hge : 255 ≤ roundHalfEven q := by
        have : (254 : ℚ) < roundHalfEven q := by linarith
        have : 254 < roundHalfEven q := by exact_mod_cast this
        omega
      rw [min_eq_right hq2, max_eq_right (by norm_num : (0 : ℚ) ≤ 255), h255]
      omega
    · have hge : 0 ≤ roundHalfEven q := by
        have : (-1 : ℚ) < roundHalfEven q := by linarith
        have : -1 < roundHalfEven q := by exact_mod_cast this
        omega
      have hle : roundHalfEven q ≤ 255 := by
        have : (roundHalfEven q : ℚ) < 256 := by linarith
        have : roundHalfEven q < 256 := by exact_mod_cast this
        omega
      rw [min_eq_left hq2.le, max_eq_right hq.le]
      omega

theorem normalizeScale_of_lt (min max : Nat) (hlt : min < max) :
    normalizeScale min max = Dbl.fin (fl64 (255 / ((max : ℚ) - min))) := by
  unfold normalizeScale
  have hne : (max : Int) - min ≠ 0 := by omega
  simp only [if_neg hne]
  push_cast
  rfl

theorem clampQ_of_nonpos (x : ℚ) (hx : x ≤ 0) : clampQ x 0 255 = 0 := by
  unfold clampQ
  rw [min_eq_left (by linarith), max_eq_left hx]

theorem clampQ_of_ge (x : ℚ) (hx : 255 ≤ x) : clampQ x 0 255 = 255 := by
  unfold clampQ
  rw [min_eq_right hx, max_eq_right (by norm_num)]

theorem clampQ_of_mem (x : ℚ) (h0 : 0 ≤ x) (h1 : x ≤ 255) : clampQ x 0 255 = x := by
  unfold clampQ
  rw [min_eq_left h1, max_eq_right h0]

theorem clampQ_bounds (x : ℚ) : 0 ≤ clampQ x 0 255 ∧ clampQ x 0 255 ≤ 255 := by
  unfold clampQ
  exact ⟨le_max_left _ _, max_le (by norm_num) (min_le_right _ _)⟩

theorem roundHalfEven_eq_of_near (q : ℚ) (m : ℤ) (h : |q - m| < 1 / 2) :
    roundHalfEven q = m := by
  have h1 := roundHalfEven_sub_le q
  rw [abs_le] at h1
  rw [abs_lt] at h
  have h2 : ((roundHalfEven q : ℤ) : ℚ) < m + 1 := by linarith
  have h3 : (m : ℚ) - 1 < roundHalfEven q := by linarith
  have h4 : roundHalfEven q < m + 1 := by exact_mod_cast h2
  have h5 : m - 1 < roundHalfEven q := by exact_mod_cast h3
  omega

/-- Evaluation of `fl64` at a positive number whose binade and significand are known. -/
theorem fl64_eval (q : ℚ) (e m : ℤ) (hq : 0 < q) (he : -1022 ≤ e) (h1 : (2 : ℚ) ^ e ≤ q)
    (h2 : q < (2 : ℚ) ^ (e + 1)) (hm : |q / 2 ^ (e - 52) - m| < 1 / 2) :
    fl64 q = m * 2 ^ (e - 52) := by
  have habs : |q| = q := abs_of_pos hq
  have hlog : Int.log 2 |q| = e := by
    rw [habs]
    apply le_antisymm
    · have : Int.log 2 q < e + 1 :=
        (Int.lt_zpow_iff_log_lt (by norm_num) hq).mp (by exact_mod_cast h2)
      omega
    · exact (Int.zpow_le_iff_le_log (by norm_num) hq).mp (by exact_mod_cast h1)
  unfold fl64
  rw [if_neg hq.ne.symm]
  simp only [hlog, max_eq_left he]
  rw [roundHalfEven_eq_of_near _ m hm]

/-- Integers below `2^53` are binary64 numbers. -/
theorem fl64_natCast (n : ℕ) (h : n < 2 ^ 53) : fl64 (n : ℚ) = n := by
  rcases Nat.eq_zero_or_pos n with h0 | hpos
  · subst h0; simp [fl64]
  · have hne : (n : ℚ) ≠ 0 := by exact_mod_cast hpos.ne.symm
    have hlog : Int.log 2 |(n : ℚ)| = (Nat.log 2 n : ℤ) := by
      rw [abs_of_nonneg (by positivity), Int.log_natCast]
    have he : Nat.log 2 n < 53 := Nat.log_lt_of_lt_pow hpos.ne.symm h
    unfold fl64
    rw [if_neg hne]
    simp only [hlog]
    rw [max_eq_left (by omega)]
    obtain ⟨k, hk⟩ : ∃ k : ℕ, (Nat.log 2 n : ℤ) - 52 = -(k : ℤ) := ⟨52 - Nat.log 2 n, by omega⟩
    rw [hk, zpow_neg, zpow_natCast]
    have hcast : (n : ℚ) / ((2 : ℚ) ^ k)⁻¹ = (((n * 2 ^ k : ℕ) : ℤ) : ℚ) := by
      push_cast
      field_simp
    rw [hcast, roundHalfEven_intCast]
    push_cast
    field_simp

/-- Line 293: for a non-negative `int` coordinate, the truncated binary64 quotient by
`img_scale_fact` is the integer quotient by 3. -/
theorem trunc_div_scale (x : ℤ) (h0 : 0 ≤ x) (h1 : x < 2 ^ 31) :
    truncToInt (fl64 ((x : ℚ) / img_scale_fact)) = x / 3 := by
  unfold img_scale_fact
  obtain ⟨n, hn⟩ : ∃ n : ℕ, x / 3 = (n : ℤ) := ⟨(x / 3).toNat, by omega⟩
  have hnb : n < 2 ^ 53 := by
    have : (n : ℤ) < 2 ^ 53 := by omega
    exact_mod_cast this
  rw [hn]
  have hx3 : x % 3 = 0 ∨ x % 3 = 1 ∨ x % 3 = 2 := by omega
  have hxq : (x : ℚ) < 2147483648 := by exact_mod_cast h1
  have key : ∀ r : ℤ, (r = 1 ∨ r = 2) → x = 3 * n + r →
      truncToInt (fl64 ((x : ℚ) / 3)) = (n : ℤ) := by
    intro r hr hx
    have hq1 : (n : ℚ) + 1 / 3 ≤ (x : ℚ) / 3 := by
      have : (3 : ℚ) * n + 1 ≤ x := by
        have : 3 * (n : ℤ) + 1 ≤ x := by omega
        exact_mod_cast this
      linarith
    have hq2 : (x : ℚ) / 3 ≤ (n : ℚ) + 2 / 3 := by
      have : (x : ℚ) ≤ 3 * n + 2 := by
        have : x ≤ 3 * (n : ℤ) + 2 := by omega
        exact_mod_cast this
      linarith
    have hn0 : (0 : ℚ) ≤ n := by positivity
    have hlow : (1 : ℚ) / 1024 ≤ (x : ℚ) / 3 := by linarith
    obtain ⟨hf1, hf2⟩ := fl64_near _ hlow
    have hgt : (n : ℚ) < fl64 ((x : ℚ) / 3) := by linarith
    have hlt : fl64 ((x : ℚ) / 3) < (n : ℚ) + 1 := by linarith
    unfold truncToInt
    rw [if_pos (by linarith)]
    rw [Int.floor_eq_iff]
    exact ⟨by exact_mod_cast hgt.le, by exact_mod_cast hlt⟩
  rcases hx3 with hr | hr | hr
  · have hx : x = 3 * n := by omega
    have hq : (x : ℚ) / 3 = (n : ℚ) := by
      rw [hx]; push_cast; field_simp
    rw [hq, fl64_natCast n hnb]
    unfold truncToInt
    rw [if_pos (by positivity)]
    exact_mod_cast (Int.floor_natCast n : ⌊(n : ℚ)⌋ = n)
  · exact key 1 (Or.inl rfl) (by omega)
  · exact key 2 (Or.inr rfl) (by omega)

theorem rawCoord_eq (x : ℤ) (h0 : 0 ≤ x) (h1 : x < 2 ^ 31) : rawCoord x = x / 3 :=
  trunc_div_scale x h0 h1

theorem scale_factor_eq : scale_factor = 662929865148937 / 72057594037927936 := by
  unfold scale_factor
  rw [fl64_eval (92 / 10000) (-7) 5303438921191496 (by norm_num) (by norm_num)
    (by norm_num [zpow_neg]) (by norm_num [zpow_neg]) (by norm_num [zpow_neg, abs_lt])]
  norm_num [zpow_neg]

theorem temperatureOf_4000 : temperatureOf 4000 = fl64 (368 / 10) := by
  unfold temperatureOf
  rw [scale_factor_eq]
  rw [fl64_eval (368 / 10) 5 5179139571476070 (by norm_num) (by norm_num)
    (by norm_num) (by norm_num) (by norm_num [zpow_neg, abs_lt])]
  rw [fl64_eval _ 5 5179139571476070 (by norm_num) (by norm_num)
    (by norm_num) (by norm_num) (by norm_num [zpow_neg, abs_lt])]

/-! ## Binary32 -/

theorem fl32_err (q : ℚ) (h : (2 : ℚ) ^ (-126 : ℤ) ≤ |q|) :
    |fl32 q - q| ≤ |q| * 2 ^ (-24 : ℤ) := by
  have hpos : 0 < |q| := lt_of_lt_of_le (by positivity) h
  have hq : q ≠ 0 := abs_pos.mp hpos
  have he : (-126 : ℤ) ≤ Int.log 2 |q| :=
    (Int.zpow_le_iff_le_log (by norm_num) hpos).mp (by exact_mod_cast h)
  have hlog : (2 : ℚ) ^ (Int.log 2 |q|) ≤ |q| := by
    have := Int.zpow_log_le_self (b := 2) (by norm_num) hpos
    exact_mod_cast this
  unfold fl32
  rw [if_neg hq]
  simp only [max_eq_left he]
  generalize Int.log 2 |q| = e at hlog
  have hulp : (0 : ℚ) < 2 ^ (e - 23) := by positivity
  have hr := roundHalfEven_sub_le (q / 2 ^ (e - 23))
  have key : (roundHalfEven (q / 2 ^ (e - 23)) : ℚ) * 2 ^ (e - 23) - q
      = ((roundHalfEven (q / 2 ^ (e - 23)) : ℚ) - q / 2 ^ (e - 23)) * 2 ^ (e - 23) := by
    field_simp
  rw [key, abs_mul, abs_of_pos hulp]
  have h24 : (2 : ℚ) ^ (e - 23) = 2 ^ e * 2 ^ (-24 : ℤ) * 2 := by
    rw [show e - 23 = e + (-24) + 1 by ring, zpow_add₀ (by norm_num), zpow_add₀ (by norm_num)]
    norm_num
  calc |(roundHalfEven (q / 2 ^ (e - 23)) : ℚ) - q / 2 ^ (e - 23)| * 2 ^ (e - 23)
      ≤ 1 / 2 * 2 ^ (e - 23) := by gcongr
    _ = 2 ^ e * 2 ^ (-24 : ℤ) := by rw [h24]; ring
    _ ≤ |q| * 2 ^ (-24 : ℤ) := by gcongr

theorem two_zpow_neg24 : (2 : ℚ) ^ (-24 : ℤ) = 1 / 16777216 := by
  norm_num [zpow_neg]

theorem two_zpow_neg126_le : (2 : ℚ) ^ (-126 : ℤ) ≤ 1 / 1024 := by
  calc (2 : ℚ) ^ (-126 : ℤ) ≤ 2 ^ (-10 : ℤ) := by
        apply zpow_le_zpow_right₀ <;> norm_num
    _ = 1 / 1024 := by norm_num [zpow_neg]

theorem fl32_near (q : ℚ) (hq : (1 : ℚ) / 1024 ≤ q) :
    q * (1 - 1 / 16777216) ≤ fl32 q ∧ fl32 q ≤ q * (1 + 1 / 16777216) := by
  have hpos : 0 < q := lt_of_lt_of_le (by norm_num) hq
  have h := fl32_err q (by rw [abs_of_pos hpos]; exact le_trans two_zpow_neg126_le hq)
  rw [abs_of_pos hpos, two_zpow_neg24, abs_le] at h
  constructor <;> linarith [h.1, h.2]

/-- Evaluation of `fl32` at a positive number whose binade and significand are known. -/
theorem fl32_eval (q : ℚ) (e m : ℤ) (hq : 0 < q) (he : -126 ≤ e) (h1 : (2 : ℚ) ^ e ≤ q)
    (h2 : q < (2 : ℚ) ^ (e + 1)) (hm : |q / 2 ^ (e - 23) - m| < 1 / 2) :
    fl32 q = m * 2 ^ (e - 23) := by
  have habs : |q| = q := abs_of_pos hq
  have hlog : Int.log 2 |q| = e := by
    rw [habs]
    apply le_antisymm
    · have : Int.log 2 q < e + 1 :=
        (Int.lt_zpow_iff_log_lt (by norm_num) hq).mp (by exact_mod_cast h2)
      omega
    · exact (Int.zpow_le_iff_le_log (by norm_num) hq).mp (by exact_mod_cast h1)
  unfold fl32
  rw [if_neg hq.ne.symm]
  simp only [hlog, max_eq_left he]
  rw [roundHalfEven_eq_of_near _ m hm]

/-- At a tie above an odd integer the rounding goes up, to the even neighbour. -/
theorem roundHalfEven_tie_odd (n : ℤ) (h : n % 2 = 1) :
    roundHalfEven ((n : ℚ) + 1 / 2) = n + 1 := by
  have hf : ⌊(n : ℚ) + 1 / 2⌋ = n := by
    rw [Int.floor_eq_iff]
    constructor <;> norm_num
  unfold roundHalfEven
  simp only [hf]
  have hr : (n : ℚ) + 1 / 2 - (n : ℚ) = 1 / 2 := by ring
  rw [hr]
  simp only [lt_self_iff_false, if_false]
  rw [if_neg (by omega)]

/-! ## The scaled sample -/

/-- The binary32 product of a sample offset `k` and the scale `255./d` lies within three
roundings of the exact quotient `255 k / d`. -/
theorem scaled_product_bounds (k : ℕ) (d : ℚ) (hd1 : 1 ≤ d) (hd2 : d ≤ 65535) :
    (k : ℚ) * 255 / d
        * ((1 - 1 / 9007199254740992) * (1 - 1 / 16777216) * (1 - 1 / 16777216))
      ≤ fl32 ((k : ℚ) * fl32 (fl64 (255 / d))) ∧
    fl32 ((k : ℚ) * fl32 (fl64 (255 / d)))
      ≤ (k : ℚ) * 255 / d
        * ((1 + 1 / 9007199254740992) * (1 + 1 / 16777216) * (1 + 1 / 16777216)) := by
  have hdpos : (0 : ℚ) < d := by linarith
  rcases Nat.eq_zero_or_pos k with hk | hk
  · subst hk
    simp [fl32]
  · have hk1 : (1 : ℚ) ≤ k := by exact_mod_cast hk
    have hq0 : (1 : ℚ) / 512 ≤ 255 / d := by
      rw [le_div_iff₀ hdpos]; linarith
    obtain ⟨s1, s2⟩ := fl64_near (255 / d) (by linarith)
    generalize fl64 (255 / d) = sc at s1 s2
    have hsc : (1 : ℚ) / 1024 ≤ sc := by linarith
    obtain ⟨a1, a2⟩ := fl32_near sc hsc
    generalize fl32 sc = a at a1 a2
    have ha : (1 : ℚ) / 1024 ≤ a := by linarith
    have hka : (1 : ℚ) / 1024 ≤ (k : ℚ) * a := by nlinarith
    obtain ⟨y1, y2⟩ := fl32_near ((k : ℚ) * a) hka
    generalize fl32 ((k : ℚ) * a) = y at y1 y2
    have hk0 : (0 : ℚ) ≤ k := by linarith
    have e : (k : ℚ) * 255 / d = (k : ℚ) * (255 / d) := by ring
    rw [e]
    generalize (255 : ℚ) / d = q at hq0 s1 s2
    have hq : (0 : ℚ) ≤ q := by linarith
    constructor
    · calc (k : ℚ) * q * ((1 - 1 / 9007199254740992) * (1 - 1 / 16777216) * (1 - 1 / 16777216))
          = (k : ℚ) * (q * (1 - 1 / 9007199254740992) * (1 - 1 / 16777216))
              * (1 - 1 / 16777216) := by ring
        _ ≤ (k : ℚ) * (sc * (1 - 1 / 16777216)) * (1 - 1 / 16777216) := by gcongr
        _ ≤ (k : ℚ) * a * (1 - 1 / 16777216) := by gcongr
        _ ≤ y := y1
    · calc y ≤ (k : ℚ) * a * (1 + 1 / 16777216) := y2
        _ ≤ (k : ℚ) * (sc * (1 + 1 / 16777216)) * (1 + 1 / 16777216) := by gcongr
        _ ≤ (k : ℚ) * (q * (1 + 1 / 9007199254740992) * (1 + 1 / 16777216))
              * (1 + 1 / 16777216) := by gcongr
        _ = (k : ℚ) * q * ((1 + 1 / 9007199254740992) * (1 + 1 / 16777216)
              * (1 + 1 / 16777216)) := by ring

/-- Rounding the clamp of a value within three roundings of `255 k / D`: the result is
within `1/2 + 2^-15` of the clamped quotient, is 255 from `k = D` on and 0 at `k = 0`. -/
theorem round_scaled_close (k : ℕ) (D : ℤ) (hD : 0 < D) (y0 : ℚ)
    (hlo : (k : ℚ) * 255 / D
        * ((1 - 1 / 9007199254740992) * (1 - 1 / 16777216) * (1 - 1 / 16777216)) ≤ y0)
    (hhi : y0 ≤ (k : ℚ) * 255 / D
        * ((1 + 1 / 9007199254740992) * (1 + 1 / 16777216) * (1 + 1 / 16777216))) :
    |(roundHalfEven (clampQ y0 0 255) : ℚ) - clampQ ((k : ℚ) * 255 / D) 0 255|
      ≤ 1 / 2 + 1 / 32768 ∧
    (D ≤ (k : ℤ) → roundHalfEven (clampQ y0 0 255) = 255) ∧
    (k = 0 → roundHalfEven (clampQ y0 0 255) = 0) := by
  have hdpos : (0 : ℚ) < D := by exact_mod_cast hD
  have hx0 : (0 : ℚ) ≤ (k : ℚ) * 255 / D := by positivity
  have hrne := roundHalfEven_sub_le (clampQ y0 0 255)
  obtain ⟨hc0, hc255⟩ := clampQ_bounds y0
  generalize hx : (k : ℚ) * 255 / D = x at hlo hhi hx0
  have hy0 : 0 ≤ y0 := by nlinarith
  have hzero : k = 0 → roundHalfEven (clampQ y0 0 255) = 0 := by
    intro hk
    have hxz : x = 0 := by rw [← hx, hk]; simp
    have : y0 = 0 := by rw [hxz] at hlo hhi; linarith
    rw [this, clampQ_of_nonpos 0 le_rfl]
    exact_mod_cast roundHalfEven_intCast 0
  have hhigh : D ≤ (k : ℤ) → 255 ≤ x ∧ roundHalfEven (clampQ y0 0 255) = 255 := by
    intro hk
    have hkq : (D : ℚ) ≤ k := by exact_mod_cast hk
    have hx255 : 255 ≤ x := by
      rw [← hx, le_div_iff₀ hdpos]; nlinarith
    have hylow : (254 : ℚ) + 3 / 4 ≤ clampQ y0 0 255 := by
      rcases le_or_lt y0 255 with h | h
      · rw [clampQ_of_mem _ hy0 h]; nlinarith
      · rw [clampQ_of_ge _ h.le]; norm_num
    rw [abs_le] at hrne
    have hn1 : (254 : ℚ) < roundHalfEven (clampQ y0 0 255) := by linarith [hrne.1]
    have hn2 : (roundHalfEven (clampQ y0 0 255) : ℚ) < 256 := by linarith [hrne.2]
    have hn3 : 254 < roundHalfEven (clampQ y0 0 255) := by exact_mod_cast hn1
    have hn4 : roundHalfEven (clampQ y0 0 255) < 256 := by exact_mod_cast hn2
    exact ⟨hx255, by omega⟩
  refine ⟨?_, fun hk => (hhigh hk).2, hzero⟩
  rcases lt_or_le (k : ℤ) D with hk | hk
  · have hkq : (k : ℚ) < D := by exact_mod_cast hk
    have hx255 : x < 255 := by
      rw [← hx, div_lt_iff₀ hdpos]; nlinarith
    rw [clampQ_of_mem _ hx0 hx255.le]
    have hclose : |clampQ y0 0 255 - x| ≤ 1 / 32768 := by
      rw [abs_le]
      rcases le_or_lt y0 255 with h | h
      · rw [clampQ_of_mem _ hy0 h]
        constructor <;> nlinarith
      · rw [clampQ_of_ge _ h.le]
        constructor <;> nlinarith
    rw [abs_le] at hrne hclose ⊢
    constructor <;> linarith [hrne.1, hrne.2, hclose.1, hclose.2]
  · obtain ⟨hx255, hr⟩ := hhigh hk
    rw [clampQ_of_ge _ hx255, hr]
    norm_num

/-- The pixel computed for one sample when `min < max`: the half-even rounding of the
clamped binary32 product, within `1/2 + 2^-15` of the clamped exact quotient. -/
theorem normalize_pixel (pf : Platform) (min max s : Nat) (hlt : min < max)
    (hmax : max ≤ 65535) (hs : s ≤ 65535) :
    ∃ p : Nat,
      saturateTo 0 (((normalizeScale min max).scaleSample
        (saturate_cast_u16 ((s : Int) - min))).toU16 pf) = p ∧
      p ≤ 255 ∧
      (p : Int) = roundHalfEven (clampQ
        (fl32 (((s - min : Nat) : ℚ) * fl32 (fl64 (255 / ((max : ℚ) - min))))) 0 255) ∧
      |(p : ℚ) - clampQ (((s : ℚ) - min) * 255 / ((max : ℚ) - min)) 0 255|
        ≤ 1 / 2 + 1 / 32768 ∧
      (s ≤ min → p = 0) ∧ (max ≤ s → p = 255) := by
  have hd1 : (1 : ℚ) ≤ (max : ℚ) - min := by
    have : (min : ℚ) + 1 ≤ max := by exact_mod_cast hlt
    linarith
  have hd2 : (max : ℚ) - min ≤ 65535 := by
    have h1 : (max : ℚ) ≤ 65535 := by exact_mod_cast hmax
    have h2 : (0 : ℚ) ≤ min := by positivity
    linarith
  obtain ⟨b1, b2⟩ := scaled_product_bounds (s - min) ((max : ℚ) - min) hd1 hd2
  rw [normalizeScale_of_lt min max hlt, saturate_cast_u16_sub s min hs]
  simp only [Dbl.scaleSample, Dbl.toU16]
  obtain ⟨hround, hle⟩ := saturate_round_eq
    (fl32 (((s - min : Nat) : ℚ) * fl32 (fl64 (255 / ((max : ℚ) - min)))))
  have hD : (((max : ℤ) - min : ℤ) : ℚ) = (max : ℚ) - min := by push_cast; rfl
  obtain ⟨c1, c2, c3⟩ := round_scaled_close (s - min) ((max : ℤ) - min) (by omega)
    (fl32 (((s - min : Nat) : ℚ) * fl32 (fl64 (255 / ((max : ℚ) - min)))))
    (by rw [hD]; exact b1) (by rw [hD]; exact b2)
  rw [hD] at c1
  have hexact : clampQ (((s - min : Nat) : ℚ) * 255 / ((max : ℚ) - min)) 0 255
      = clampQ (((s : ℚ) - min) * 255 / ((max : ℚ) - min)) 0 255 := by
    rcases Nat.lt_or_ge s min with hsm | hsm
    · have hk : ((s - min : Nat) : ℚ) = 0 := by
        have : s - min = 0 := by omega
        simp [this]
      have hneg : ((s : ℚ) - min) * 255 / ((max : ℚ) - min) ≤ 0 := by
        have : (s : ℚ) ≤ min := by exact_mod_cast hsm.le
        apply div_nonpos_of_nonpos_of_nonneg _ (by linarith)
        nlinarith
      rw [hk, zero_mul, zero_div, clampQ_of_nonpos 0 le_rfl, clampQ_of_nonpos _ hneg]
    · rw [Nat.cast_sub hsm]
  rw [hexact] at c1
  refine ⟨_, rfl, hle, hround, ?_, ?_, ?_⟩
  · have hpq : ((saturateTo 0 (saturate_cast_u16 (roundHalfEven
        (fl32 (((s - min : Nat) : ℚ) * fl32 (fl64 (255 / ((max : ℚ) - min))))))) : Nat) : ℚ)
        = ((roundHalfEven (clampQ
          (fl32 (((s - min : Nat) : ℚ) * fl32 (fl64 (255 / ((max : ℚ) - min))))) 0 255) : Int) : ℚ) := by
      exact_mod_cast hround
    rw [hpq]
    exact c1
  · intro hsm
    have h0 := c3 (by omega)
    rw [h0] at hround
    exact_mod_cast hround
  · intro hsx
    have h255 := c2 (by omega)
    rw [h255] at hround
    exact_mod_cast hround

/-! ## Degenerate range, inline rescaling -/

theorem normalizeScale_self (m : Nat) : normalizeScale m m = Dbl.inf := by
  simp [normalizeScale]

theorem degenerate_pixel (pf : Platform) (m s : Nat) :
    saturateTo 0 ((Dbl.inf.scaleSample (saturate_cast_u16 ((s : Int) - m))).toU16 pf)
      = if s ≤ m then min pf.nanToU16 255 else min pf.infToU16 255 := by
  by_cases h : s ≤ m
  · have h0 : saturate_cast_u16 ((s : Int) - m) = 0 := by
      unfold saturate_cast_u16; omega
    simp [h0, h, Dbl.scaleSample, Dbl.toU16, saturateTo]
  · have h0 : saturate_cast_u16 ((s : Int) - m) ≠ 0 := by
      unfold saturate_cast_u16; omega
    simp [h0, h, Dbl.scaleSample, Dbl.toU16, saturateTo]

theorem normalizeFrame_data (pf : Platform) (frame16 : Mat) (min max : Nat) :
    (normalizeFrame pf frame16 min max).data
      = frame16.data.map (fun (s : Nat) => saturateTo 0
          (((normalizeScale min max).scaleSample (saturate_cast_u16 ((s : Int) - min))).toU16 pf)) := by
  simp [normalizeFrame, Mat.convertTo, Mat.mulScalar, Mat.subScalar, Mat.copyTo, List.map_map,
    CV_MAT_DEPTH, CV_8UC1, CV_MAKETYPE, CV_8U, Function.comp_def]



/-! ## Handlers: what they leave untouched -/

theorem keyboard_handler_close (st : State) (key res : Int) :
    (keyboard_handler st key res).close = st.close := by
  unfold keyboard_handler
  split_ifs <;> rfl

theorem keyboard_handler_frame (st : State) (key res : Int) :
    (keyboard_handler st key res).frame16 = st.frame16 ∧
    (keyboard_handler st key res).dispFrame = st.dispFrame ∧
    (keyboard_handler st key res).shown = st.shown ∧
    (keyboard_handler st key res).allocs = st.allocs ∧
    (keyboard_handler st key res).initialized = st.initialized ∧
    (keyboard_handler st key res).min_raw16 = st.min_raw16 ∧
    (keyboard_handler st key res).max_raw16 = st.max_raw16 := by
  unfold keyboard_handler
  split_ifs <;> simp

theorem keyStep_frame (st : State) (key res : Int) :
    (keyStep st key res).frame16 = st.frame16 ∧
    (keyStep st key res).dispFrame = st.dispFrame ∧
    (keyStep st key res).shown = st.shown ∧
    (keyStep st key res).allocs = st.allocs ∧
    (keyStep st key res).initialized = st.initialized ∧
    (keyStep st key res).min_raw16 = st.min_raw16 ∧
    (keyStep st key res).max_raw16 = st.max_raw16 := by
  unfold keyStep
  simp only
  obtain ⟨h1, h2, h3, h4, h5, h6, h7⟩ := keyboard_handler_frame
    (if key = keyCode 'q' ∨ key = keyCode 'Q' then { st with close := true } else st) key res
  rw [h1, h2, h3, h4, h5, h6, h7]
  split_ifs <;> simp

theorem close_handler_frame (st : State) (s : Int) :
    (close_handler st s).frame16 = st.frame16 ∧
    (close_handler st s).dispFrame = st.dispFrame ∧
    (close_handler st s).shown = st.shown ∧
    (close_handler st s).allocs = st.allocs ∧
    (close_handler st s).initialized = st.initialized ∧
    (close_handler st s).min_raw16 = st.min_raw16 ∧
    (close_handler st s).max_raw16 = st.max_raw16 := by
  unfold close_handler
  split_ifs <;> simp

/-- The key and signal steps of an iteration leave the frame, the displayed images and
the allocation record as `acquire` set them. -/
theorem iteration_frame (pf : Platform) (st : State) (p : Poll) :
    (iteration pf st p).frame16 = (acquire pf st p).frame16 ∧
    (iteration pf st p).dispFrame = (acquire pf st p).dispFrame ∧
    (iteration pf st p).shown = (acquire pf st p).shown ∧
    (iteration pf st p).allocs = (acquire pf st p).allocs ∧
    (iteration pf st p).initialized = (acquire pf st p).initialized ∧
    (iteration pf st p).min_raw16 = (acquire pf st p).min_raw16 ∧
    (iteration pf st p).max_raw16 = (acquire pf st p).max_raw16 := by
  unfold iteration
  simp only
  cases hs : p.signal with
  | none =>
    cases hd : p.data with
    | none => simp
    | some d => simpa using keyStep_frame (acquire pf st p) p.key p.ffc
  | some s =>
    cases hd : p.data with
    | none => simpa using close_handler_frame (acquire pf st p) s
    | some d =>
      simp only
      obtain ⟨h1, h2, h3, h4, h5, h6, h7⟩ :=
        close_handler_frame (keyStep (acquire pf st p) p.key p.ffc) s
      obtain ⟨k1, k2, k3, k4, k5, k6, k7⟩ := keyStep_frame (acquire pf st p) p.key p.ffc
      rw [h1, h2, h3, h4, h5, h6, h7, k1, k2, k3, k4, k5, k6, k7]
      simp

theorem acquire_allocs (pf : Platform) (st : State) (p : Poll) :
    (acquire pf st p).initialized = true ∧
    (acquire pf st p).allocs
      = if st.initialized then st.allocs else st.allocs ++ [(p.h, p.w)] := by
  unfold acquire
  cases hd : p.data <;> cases hi : st.initialized <;> simp [hi]

theorem acquire_frame (pf : Platform) (st : State) (p : Poll) (data16 : List Nat)
    (h : p.data = some data16) :
    (acquire pf st p).dispFrame = normalizeFrame pf (acquire pf st p).frame16 p.min p.max ∧
    (acquire pf st p).shown
      = st.shown ++ [(normalizeFrame pf (acquire pf st p).frame16 p.min p.max, img_scale_fact)] ∧
    (acquire pf st p).min_raw16 = p.min ∧ (acquire pf st p).max_raw16 = p.max ∧
    (acquire pf st p).frame16.data
      = memcpy (if st.initialized then st.frame16.data else List.replicate (p.h * p.w) 0)
          data16 (p.w * p.h) ∧
    (acquire pf st p).frame16.rows = (if st.initialized then st.frame16.rows else p.h) ∧
    (acquire pf st p).frame16.cols = (if st.initialized then st.frame16.cols else p.w) := by
  unfold acquire
  cases hi : st.initialized <;>
    simp [h, hi, normalizeFrame, Mat.convertTo, Mat.mulScalar, Mat.subScalar, Mat.copyTo,
      Mat.create, CV_MAT_DEPTH, CV_MAT_CN, CV_8UC1, CV_8UC3, CV_16UC1, CV_MAKETYPE, CV_8U,
      CV_16U]

theorem set_rgb_mode_fields (st : State) (enable : Bool) (rRad rAgc rRgb : Int) :
    (set_rgb_mode st enable rRad rAgc rRgb).close = st.close ∧
    (set_rgb_mode st enable rRad rAgc rRgb).initialized = st.initialized ∧
    (set_rgb_mode st enable rRad rAgc rRgb).allocs = st.allocs ∧
    (set_rgb_mode st enable rRad rAgc rRgb).calls
      = st.calls ++ [DriverCall.enableRadiometry (!enable), DriverCall.enableAgc enable,
          DriverCall.enableRgbOutput enable] := by
  by_cases h1 : rRad < 0 <;> by_cases h2 : rAgc < 0 <;> by_cases h3 : rRgb < 0 <;>
    cases enable <;> simp [set_rgb_mode, h1, h2, h3]

theorem set_rgb_mode_close (st : State) (enable : Bool) (rRad rAgc rRgb : Int) :
    (set_rgb_mode st enable rRad rAgc rRgb).close = st.close :=
  (set_rgb_mode_fields st enable rRad rAgc rRgb).1

theorem set_rgb_mode_initialized (st : State) (enable : Bool) (rRad rAgc rRgb : Int) :
    (set_rgb_mode st enable rRad rAgc rRgb).initialized = st.initialized :=
  (set_rgb_mode_fields st enable rRad rAgc rRgb).2.1

theorem set_rgb_mode_allocs (st : State) (enable : Bool) (rRad rAgc rRgb : Int) :
    (set_rgb_mode st enable rRad rAgc rRgb).allocs = st.allocs :=
  (set_rgb_mode_fields st enable rRad rAgc rRgb).2.2.1

theorem set_rgb_mode_calls (st : State) (enable : Bool) (rRad rAgc rRgb : Int) :
    (set_rgb_mode st enable rRad rAgc rRgb).calls
      = st.calls ++ [DriverCall.enableRadiometry (!enable), DriverCall.enableAgc enable,
          DriverCall.enableRgbOutput enable] :=
  (set_rgb_mode_fields st enable rRad rAgc rRgb).2.2.2

theorem startup_fields (d : Startup) :
    (startup d).close = false ∧ (startup d).initialized = false ∧ (startup d).allocs = [] ∧
    DriverCall.getLastFrame16 ∉ (startup d).calls := by
  unfold startup
  by_cases g1 : d.setGain = LEP_OK <;> by_cases g2 : d.getGain = LEP_OK <;>
    simp [g1, g2, set_rgb_mode_close, set_rgb_mode_initialized, set_rgb_mode_allocs,
      set_rgb_mode_calls, State.init]

theorem loop_initialized (pf : Platform) (ps : List Poll) :
    ∀ st : State, st.initialized = true →
      (loop pf st ps).allocs = st.allocs ∧ (loop pf st ps).initialized = true := by
  induction ps with
  | nil => intro st h; exact ⟨rfl, h⟩
  | cons p ps ih =>
    intro st h
    unfold loop
    split_ifs with hc
    · exact ⟨rfl, h⟩
    · obtain ⟨i1, i2⟩ := acquire_allocs pf st p
      obtain ⟨_, _, _, h4, h5, _, _⟩ := iteration_frame pf st p
      obtain ⟨r1, r2⟩ := ih (iteration pf st p) (by rw [h5, i1])
      rw [r1, h4, i2, h]
      exact ⟨by simp, r2⟩


/-! ## Element access and copying -/

theorem memcpy_full (dst src : List Nat) (n : Nat) (h1 : src.length = n) (h2 : dst.length = n) :
    memcpy dst src n = src := by
  unfold memcpy
  rw [List.take_of_length_le h1.le, h1, Nat.min_self, List.drop_of_length_le h2.le,
    List.append_nil, List.take_of_length_le (by omega)]

theorem index_lt (rows cols : Nat) (r c : Int) (h : 0 ≤ r ∧ r < rows ∧ 0 ≤ c ∧ c < cols) :
    (r * cols + c).toNat < rows * cols := by
  obtain ⟨h1, h2, h3, h4⟩ := h
  obtain ⟨a, rfl⟩ := Int.eq_ofNat_of_zero_le h1
  obtain ⟨b, rfl⟩ := Int.eq_ofNat_of_zero_le h3
  have ha : a < rows := by exact_mod_cast h2
  have hb : b < cols := by exact_mod_cast h4
  have e : ((a : Int) * cols + b).toNat = a * cols + b := by
    have : ((a : Int) * cols + b) = ((a * cols + b : Nat) : Int) := by push_cast; ring
    rw [this, Int.toNat_ofNat]
  rw [e]
  calc a * cols + b < a * cols + cols := by omega
    _ = (a + 1) * cols := by ring
    _ ≤ rows * cols := Nat.mul_le_mul_right cols ha

/-- Inside a well-formed matrix the element access yields the sample at the row-major index. -/
theorem at_of_mem (m : Mat) (hwf : m.WellFormed) (r c : Int)
    (h : 0 ≤ r ∧ r < m.rows ∧ 0 ≤ c ∧ c < m.cols) :
    ∃ v, m.at? r c = some v ∧ m.data[(r * m.cols + c).toNat]? = some v := by
  have hlt : (r * m.cols + c).toNat < m.data.length := by
    rw [hwf]; exact index_lt m.rows m.cols r c h
  refine ⟨m.data[(r * m.cols + c).toNat], ?_, ?_⟩
  · unfold Mat.at?
    rw [if_pos h]
    exact List.getElem?_eq_getElem hlt
  · exact List.getElem?_eq_getElem hlt

theorem at_of_not_mem (m : Mat) (r c : Int)
    (h : ¬ (0 ≤ r ∧ r < m.rows ∧ 0 ≤ c ∧ c < m.cols)) : m.at? r c = none := by
  unfold Mat.at?
  rw [if_neg h]


/-! ## Claims -/

/-- Counterexample to C1: with `min = 0`, `max = 26447` the sample 26084 has the exact
quotient `26084 * 255 / 26447 = 251.49998...`, whose rounding is 251 under every rule;
the binary32 product is exactly 251.5 and the normaliser returns 252, which is more than
1/2 away from the exact value. -/
theorem normalizeFrame_near_tie :
    (normalizeFrame Platform.saturating nearTieFrame 0 26447).data = [252] ∧
    roundHalfEven (clampQ (((26084 : ℚ) - 0) * 255 / ((26447 : ℚ) - 0)) 0 255) = 251 ∧
    1 / 2 < |(252 : ℚ) - clampQ (((26084 : ℚ) - 0) * 255 / ((26447 : ℚ) - 0)) 0 255| := by
  have hexact : clampQ (((26084 : ℚ) - 0) * 255 / ((26447 : ℚ) - 0)) 0 255
      = 6651420 / 26447 := by
    rw [clampQ_of_mem] <;> norm_num
  refine ⟨?_, ?_, ?_⟩
  · obtain ⟨p, hp, _, hround, _⟩ :=
      normalize_pixel Platform.saturating 0 26447 26084 (by norm_num) (by norm_num)
        (by norm_num)
    have hval : roundHalfEven (clampQ
        (fl32 ((((26084 - 0 : Nat) : ℕ) : ℚ) * fl32 (fl64 (255 / (((26447 : ℕ) : ℚ) - ((0 : ℕ) : ℚ)))))) 0 255)
        = 252 := by
      have e1 : (((26084 - 0 : Nat) : ℕ) : ℚ) = 26084 := by norm_num
      have e2 : (((26447 : ℕ) : ℚ) - ((0 : ℕ) : ℚ)) = 26447 := by norm_num
      have h64 : fl64 (255 / 26447) = 1389547886691997 / 144115188075855872 := by
        rw [fl64_eval (255 / 26447) (-7) 5558191546767988 (by norm_num) (by norm_num)
          (by norm_num [zpow_neg]) (by norm_num [zpow_neg]) (by norm_num [zpow_neg, abs_lt])]
        norm_num [zpow_neg]
      have h32 : fl32 (1389547886691997 / 144115188075855872) = 10352939 / 1073741824 := by
        rw [fl32_eval (1389547886691997 / 144115188075855872) (-7) 10352939 (by norm_num)
          (by norm_num) (by norm_num [zpow_neg]) (by norm_num [zpow_neg])
          (by norm_num [zpow_neg, abs_lt])]
        norm_num [zpow_neg]
      have hprod : fl32 (26084 * (10352939 / 1073741824)) = ((251 : ℤ) : ℚ) + 1 / 2 := by
        rw [fl32_eval (26084 * (10352939 / 1073741824)) 7 16482304 (by norm_num)
          (by norm_num) (by norm_num) (by norm_num) (by norm_num [zpow_neg, abs_lt])]
        norm_num [zpow_neg]
      rw [e1, e2, h64, h32, hprod, clampQ_of_mem _ (by norm_num) (by norm_num),
        roundHalfEven_tie_odd 251 (by decide)]
      norm_num
    rw [hval] at hround
    have hp252 : p = 252 := by exact_mod_cast hround
    rw [normalizeFrame_data]
    simp only [nearTieFrame, List.map_cons, List.map_nil]
    rw [hp, hp252]
  · rw [hexact]
    apply roundHalfEven_eq_of_near
    rw [abs_lt]
    constructor <;> norm_num
  · rw [hexact]
    rw [lt_abs]
    left
    norm_num

/-- Claim C1, amended. For `min < max` (16-bit) the normaliser keeps the dimensions, and the
pixel at every position of a 16-bit sample `s` (below `min` and above `max` included) lies
in `[0, 255]` and is the half-even rounding of `clamp(sat(s - min) * scale, 0, 255)` as the
program computes it: `scale = 255./(max - min)` in binary64, the product in binary32. It is
0 for `s ≤ min`, 255 for `s ≥ max`, and within `1/2 + 2^-15` of the exact
`clamp((s - min) * 255 / (max - min), 0, 255)`, so it is the rounding of that value except
possibly within `2^-15` of a half-integer. With `min = 1000`, `max = 4000`: 4000 gives 255,
1000 gives 0, 2500 gives 127 or 128. -/
theorem normalizeFrame_pixels (pf : Platform) (frame16 : Mat) (min max : Nat)
    (hlt : min < max) (hmax : max ≤ 65535) :
    (normalizeFrame pf frame16 min max).rows = frame16.rows ∧
    (normalizeFrame pf frame16 min max).cols = frame16.cols ∧
    (normalizeFrame pf frame16 min max).data.length = frame16.data.length ∧
    ∀ (i s : Nat), frame16.data[i]? = some s → s ≤ 65535 →
      ∃ p : Nat, (normalizeFrame pf frame16 min max).data[i]? = some p ∧ p ≤ 255 ∧
        (p : Int) = roundHalfEven (clampQ
          (fl32 (((s - min : Nat) : ℚ) * fl32 (fl64 (255 / ((max : ℚ) - min))))) 0 255) ∧
        |(p : ℚ) - clampQ (((s : ℚ) - min) * 255 / ((max : ℚ) - min)) 0 255|
          ≤ 1 / 2 + 1 / 32768 ∧
        (s ≤ min → p = 0) ∧ (max ≤ s → p = 255) ∧
        (min = 1000 → max = 4000 →
          (s = 4000 → p = 255) ∧ (s = 1000 → p = 0) ∧ (s = 2500 → p = 127 ∨ p = 128)) := by
  refine ⟨rfl, rfl, ?_, ?_⟩
  · rw [normalizeFrame_data, List.length_map]
  · intro i s hi hs
    obtain ⟨p, hp, hle, hround, hnear, hlow, hhigh⟩ := normalize_pixel pf min max s hlt hmax hs
    refine ⟨p, ?_, hle, hround, hnear, hlow, hhigh, ?_⟩
    · rw [normalizeFrame_data, List.getElem?_map, hi, Option.map_some', hp]
    · intro hmin hmx
      subst hmin hmx
      refine ⟨fun h => hhigh (by omega), fun h => hlow (by omega), ?_⟩
      intro h; subst h
      have e : clampQ ((((2500 : Nat) : ℚ) - (1000 : Nat)) * 255
          / (((4000 : Nat) : ℚ) - (1000 : Nat))) 0 255 = 255 / 2 := by
        rw [clampQ_of_mem] <;> norm_num
      rw [e, abs_le] at hnear
      have a1 : (126 : ℚ) < p := by linarith [hnear.1]
      have a2 : (p : ℚ) < 129 := by linarith [hnear.2]
      have b1 : 126 < p := by exact_mod_cast a1
      have b2 : p < 129 := by exact_mod_cast a2
      omega

/-- Witness of C1 (amended) on the scenario frame `[4000, 1000, 2500]` with range
`[1000, 4000]`: the third pixel is 127 or 128. -/
theorem normalizeFrame_pixels_witness :
    ∃ p : Nat, (normalizeFrame Platform.saturating scenarioFrame 1000 4000).data[2]? = some p ∧
      (p = 127 ∨ p = 128) := by
  obtain ⟨p, hp, _, _, _, _, _, hw⟩ :=
    (normalizeFrame_pixels Platform.saturating scenarioFrame 1000 4000 (by decide)
      (by decide)).2.2.2 2 2500 (by decide) (by decide)
  exact ⟨p, hp, (hw rfl rfl).2.2 rfl⟩

/-- Counterexample to C2: with `min = max = 1000` the scale `255./(max - min)` is the
quotient by zero, `+inf`, and on a saturating platform the frame `[1000, 1001]` is mapped
to `[0, 255]`, which is not uniform. -/
theorem degenerate_range_divides_by_zero :
    normalizeScale 1000 1000 = Dbl.inf ∧
    (normalizeScale 1000 1000).isFinite = false ∧
    (normalizeFrame Platform.saturating stepFrame 1000 1000).data = [0, 255] ∧
    ¬ (normalizeFrame Platform.saturating stepFrame 1000 1000).Uniform := by
  refine ⟨by decide, by decide, by decide, ?_⟩
  intro h
  have hd : (normalizeFrame Platform.saturating stepFrame 1000 1000).data = [0, 255] := by decide
  have := h 0 (by rw [hd]; simp) 255 (by rw [hd]; simp)
  omega

/-- Claim C2, amended. For `min = max = m` the normaliser has no guard: the scale is the
quotient by zero, `+inf`. The output keeps the dimensions, every pixel is in `[0, 255]`,
every sample `≤ m` gets the pixel of NaN and every sample `> m` the pixel of `+inf`; so the
output is uniform whenever no sample exceeds `m`. -/
theorem normalizeFrame_degenerate (pf : Platform) (frame16 : Mat) (m : Nat) :
    normalizeScale m m = Dbl.inf ∧
    (normalizeFrame pf frame16 m m).rows = frame16.rows ∧
    (normalizeFrame pf frame16 m m).cols = frame16.cols ∧
    (normalizeFrame pf frame16 m m).data
      = frame16.data.map
          (fun s => if s ≤ m then Nat.min pf.nanToU16 255 else Nat.min pf.infToU16 255) ∧
    (∀ p ∈ (normalizeFrame pf frame16 m m).data, p ≤ 255) ∧
    ((∀ s ∈ frame16.data, s ≤ m) → (normalizeFrame pf frame16 m m).Uniform) := by
  have hdata : (normalizeFrame pf frame16 m m).data
      = frame16.data.map
          (fun s => if s ≤ m then Nat.min pf.nanToU16 255 else Nat.min pf.infToU16 255) := by
    rw [normalizeFrame_data, normalizeScale_self]
    apply List.map_congr_left
    intro s _
    exact degenerate_pixel pf m s
  refine ⟨normalizeScale_self m, rfl, rfl, hdata, ?_, ?_⟩
  · intro p hp
    rw [hdata, List.mem_map] at hp
    obtain ⟨s, _, rfl⟩ := hp
    split_ifs
    · exact Nat.min_le_right _ _
    · exact Nat.min_le_right _ _
  · intro hall a ha b hb
    rw [hdata, List.mem_map] at ha hb
    obtain ⟨s, hs, rfl⟩ := ha
    obtain ⟨t, ht, rfl⟩ := hb
    rw [if_pos (hall s hs), if_pos (hall t ht)]

/-- Witness of C2 (amended): a flat frame normalised against its own range is uniform. -/
theorem normalizeFrame_degenerate_witness :
    (normalizeFrame Platform.saturating flatFrame 1000 1000).Uniform :=
  (normalizeFrame_degenerate Platform.saturating flatFrame 1000).2.2.2.2.2 (by decide)

/-- Claim C4. For every raw count `r` in `0..65535`, converting to a temperature with
`r * 0.0092` and back with the truncating 16-bit cast of `t / 0.0092`, both in binary64,
gives a raw count that differs from `r` by at most one. -/
theorem rawOf_temperatureOf (r : Nat) (hr : r ≤ 65535) :
    Int.natAbs ((rawOf (temperatureOf r) : Int) - r) ≤ 1 := by
  obtain ⟨hc1, hc2⟩ := scale_factor_bounds
  have hc : (0 : ℚ) < scale_factor := lt_trans (by norm_num) hc1
  rcases Nat.eq_zero_or_pos r with h0 | hpos
  · subst h0
    simp [temperatureOf, rawOf, fl64, castU16, truncToInt]
  · have hr1 : (1 : ℚ) ≤ r := by exact_mod_cast hpos
    have hr2 : (r : ℚ) ≤ 65535 := by exact_mod_cast hr
    have ha : (1 : ℚ) / 1024 ≤ r * scale_factor := by nlinarith
    obtain ⟨ht1, ht2⟩ := fl64_near _ ha
    have hb1 : (r : ℚ) * (1 - 1 / 9007199254740992) ≤ fl64 (r * scale_factor) / scale_factor := by
      rw [le_div_iff₀ hc]; linarith
    have hb2 : fl64 (r * scale_factor) / scale_factor ≤ (r : ℚ) * (1 + 1 / 9007199254740992) := by
      rw [div_le_iff₀ hc]; linarith
    have hb : (1 : ℚ) / 1024 ≤ fl64 (r * scale_factor) / scale_factor := by linarith
    obtain ⟨hq1, hq2⟩ := fl64_near _ hb
    have hlo : (r : ℚ) - 1 < fl64 (fl64 (r * scale_factor) / scale_factor) := by nlinarith
    have hhi : fl64 (fl64 (r * scale_factor) / scale_factor) < (r : ℚ) + 1 := by nlinarith
    have hnn : (0 : ℚ) ≤ fl64 (fl64 (r * scale_factor) / scale_factor) := by linarith
    have hf1 : (r : ℤ) - 1 ≤ ⌊fl64 (fl64 (r * scale_factor) / scale_factor)⌋ := by
      rw [Int.le_floor]; push_cast; linarith
    have hf2 : ⌊fl64 (fl64 (r * scale_factor) / scale_factor)⌋ < (r : ℤ) + 1 := by
      rw [Int.floor_lt]; push_cast; linarith
    unfold rawOf temperatureOf castU16 truncToInt
    rw [if_pos hnn]
    omega

/-- Witness of C4 at the raw count 4000. -/
theorem rawOf_temperatureOf_witness :
    Int.natAbs ((rawOf (temperatureOf 4000) : Int) - (4000 : Nat)) ≤ 1 :=
  rawOf_temperatureOf 4000 (by decide)

/-- Counterexample to C3: over the 2 x 2 frame a pointer move at screen `(6, 0)` maps to
column 2, outside the frame. The function does not reject it: line 303 reads there, and
when that read returns a value (here 7) lines 305-307 report it, so the state is not left
as it was; when the read faults there is no orderly return at all. -/
theorem mouseCallBackFunc_out_of_range :
    rawCoord 6 = 2 ∧ rawCoord 0 = 0 ∧ sampleState.frame16.at? 0 2 = none ∧
    mouseCallBackFunc sampleState EVENT_MOUSEMOVE 6 0 (some 7)
      = some { sampleState with log := [Msg.temp (temperatureOf 7) 7 3000 4000] } ∧
    mouseCallBackFunc sampleState EVENT_MOUSEMOVE 6 0 (some 7) ≠ some sampleState ∧
    mouseCallBackFunc sampleState EVENT_MOUSEMOVE 6 0 none = none := by
  have h6 : rawCoord 6 = 2 := rawCoord_eq 6 (by norm_num) (by norm_num)
  have h0 : rawCoord 0 = 0 := rawCoord_eq 0 (by norm_num) (by norm_num)
  have hat : sampleState.frame16.at? 0 2 = none := by decide
  have hrep : mouseCallBackFunc sampleState EVENT_MOUSEMOVE 6 0 (some 7)
      = some { sampleState with log := [Msg.temp (temperatureOf 7) 7 3000 4000] } := by
    unfold mouseCallBackFunc
    rw [if_pos rfl]
    simp only [h6, h0, hat]
    rfl
  refine ⟨h6, h0, hat, hrep, ?_, ?_⟩
  · rw [hrep]
    intro h
    have hl := congrArg (fun o : Option State => o.map (fun s => s.log.length)) h
    simp [sampleState, State.init] at hl
  · unfold mouseCallBackFunc
    rw [if_pos rfl]
    simp only [h6, h0, hat]

/-- Claim C3, amended. `mouseCallBackFunc` makes no bounds check and rejects nothing. An
event other than a pointer move is ignored: nothing is read or reported. A pointer move
always reads `frame16` at row `trunc(y/3)`, column `trunc(x/3)` and then reports what was
read. When these lie in `[0, rows) x [0, cols)` the read is inside the frame and the
report carries that sample, its temperature and the current `min`/`max`. Otherwise the
read is outside the frame, and the outcome is that of the outside read: a value it
returns is reported in the same way. -/
theorem mouseCallBackFunc_unchecked (st : State) (event x y : Int) (wild : Option Nat)
    (hwf : st.frame16.WellFormed) :
    (event ≠ EVENT_MOUSEMOVE → mouseCallBackFunc st event x y wild = some st) ∧
    (event = EVENT_MOUSEMOVE →
      (0 ≤ rawCoord y ∧ rawCoord y < st.frame16.rows ∧
        0 ≤ rawCoord x ∧ rawCoord x < st.frame16.cols) →
      ∃ value : Nat,
        st.frame16.at? (rawCoord y) (rawCoord x) = some value ∧
        st.frame16.data[(rawCoord y * st.frame16.cols + rawCoord x).toNat]? = some value ∧
        mouseCallBackFunc st event x y wild
          = some { st with
              log := st.log ++ [Msg.temp (temperatureOf value) value st.min_raw16 st.max_raw16] }) ∧
    (event = EVENT_MOUSEMOVE →
      ¬ (0 ≤ rawCoord y ∧ rawCoord y < st.frame16.rows ∧
        0 ≤ rawCoord x ∧ rawCoord x < st.frame16.cols) →
      st.frame16.at? (rawCoord y) (rawCoord x) = none ∧
      mouseCallBackFunc st event x y wild
        = wild.map (fun value => { st with
            log := st.log ++ [Msg.temp (temperatureOf value) value st.min_raw16 st.max_raw16] })) := by
  refine ⟨?_, ?_, ?_⟩
  · intro h
    unfold mouseCallBackFunc
    rw [if_neg h]
  · intro h hin
    obtain ⟨v, hv, hidx⟩ := at_of_mem st.frame16 hwf _ _ hin
    refine ⟨v, hv, hidx, ?_⟩
    unfold mouseCallBackFunc
    rw [if_pos h]
    simp only [hv]
  · intro h hout
    have hat := at_of_not_mem st.frame16 _ _ hout
    refine ⟨hat, ?_⟩
    unfold mouseCallBackFunc
    rw [if_pos h]
    simp only [hat]
    cases wild <;> rfl

/-- Witness of C3 (amended): over the 2 x 2 frame `[3000, 4000, 3500, 3200]` a key event is
ignored, and a pointer move at screen `(3, 3)` reads row 1, column 1 and reports 3200. -/
theorem mouseCallBackFunc_unchecked_witness :
    mouseCallBackFunc sampleState 1 6 0 none = some sampleState ∧
    mouseCallBackFunc sampleState EVENT_MOUSEMOVE 3 3 none
      = some { sampleState with log := [Msg.temp (temperatureOf 3200) 3200 3000 4000] } := by
  have h3 : rawCoord 3 = 1 := rawCoord_eq 3 (by norm_num) (by norm_num)
  refine ⟨(mouseCallBackFunc_unchecked sampleState 1 6 0 none (by decide)).1 (by decide), ?_⟩
  obtain ⟨v, _, hidx, hrep⟩ :=
    (mouseCallBackFunc_unchecked sampleState EVENT_MOUSEMOVE 3 3 none (by decide)).2.1 rfl
      (by rw [h3]; decide)
  rw [h3] at hidx
  have hv : v = 3200 := by
    have : sampleState.frame16.data[((1 : ℤ) * sampleState.frame16.cols + 1).toNat]?
        = some 3200 := by decide
    rw [this] at hidx
    exact (Option.some.inj hidx).symm
  rw [hrep, hv]
  rfl

/-- Claim C5. After an iteration that acquired a `w x h` frame, a pointer move at screen
`(x, y)` with `0 ≤ x < 3 w`, `0 ≤ y < 3 h` reads the sample at row `y / 3`, column `x / 3`,
which is inside the frame, and reports that sample, its temperature `value * 0.0092`, and
the `min`/`max` the driver reported with this frame. A sample of 4000 has the temperature
that is the binary64 number written 36.8. -/
theorem mouseCallBackFunc_report (pf : Platform) (st : State) (p : Poll) (data16 : List Nat)
    (x y : Int) (wild : Option Nat) (hdata : p.data = some data16)
    (hlen : data16.length = p.w * p.h)
    (hbuf : st.initialized = true →
      st.frame16.rows = p.h ∧ st.frame16.cols = p.w ∧ st.frame16.data.length = p.w * p.h)
    (hx0 : 0 ≤ x) (hx1 : x < 3 * p.w) (hy0 : 0 ≤ y) (hy1 : y < 3 * p.h)
    (hxi : x < 2 ^ 31) (hyi : y < 2 ^ 31) :
    (∃ value : Nat,
      data16[(y / 3 * p.w + x / 3).toNat]? = some value ∧
      0 ≤ y / 3 ∧ y / 3 < p.h ∧ 0 ≤ x / 3 ∧ x / 3 < p.w ∧
      (acquire pf st p).frame16.at? (y / 3) (x / 3) = some value ∧
      mouseCallBackFunc (acquire pf st p) EVENT_MOUSEMOVE x y wild
        = some { acquire pf st p with
            log := (acquire pf st p).log
              ++ [Msg.temp (temperatureOf value) value p.min p.max] }) ∧
    temperatureOf 4000 = fl64 (368 / 10) := by
  refine ⟨?_, temperatureOf_4000⟩
  obtain ⟨_, _, hmin, hmax, hd, hr, hc⟩ := acquire_frame pf st p data16 hdata
  have hrows : (acquire pf st p).frame16.rows = p.h := by
    rw [hr]; cases hi : st.initialized
    · simp
    · simp [(hbuf hi).1]
  have hcols : (acquire pf st p).frame16.cols = p.w := by
    rw [hc]; cases hi : st.initialized
    · simp
    · simp [(hbuf hi).2.1]
  have hdat : (acquire pf st p).frame16.data = data16 := by
    rw [hd]; cases hi : st.initialized
    · simp only [Bool.false_eq_true, if_false]
      exact memcpy_full _ _ _ hlen (by rw [List.length_replicate, Nat.mul_comm])
    · simp only [if_true]
      exact memcpy_full _ _ _ hlen (hbuf hi).2.2
  have hwf : (acquire pf st p).frame16.WellFormed := by
    unfold Mat.WellFormed
    rw [hdat, hrows, hcols, hlen, Nat.mul_comm]
  have hin : 0 ≤ y / 3 ∧ y / 3 < ((acquire pf st p).frame16.rows : Int) ∧
      0 ≤ x / 3 ∧ x / 3 < ((acquire pf st p).frame16.cols : Int) := by
    rw [hrows, hcols]; omega
  obtain ⟨v, hv, hidx⟩ := at_of_mem _ hwf _ _ hin
  rw [hdat, hcols] at hidx
  rw [hrows, hcols] at hin
  refine ⟨v, hidx, hin.1, hin.2.1, hin.2.2.1, hin.2.2.2, hv, ?_⟩
  unfold mouseCallBackFunc
  rw [if_pos rfl]
  simp only [rawCoord_eq x hx0 hxi, rawCoord_eq y hy0 hyi, hv, hmin, hmax]

/-- Witness of C5: the first iteration acquires the 2 x 2 frame `[3000, 4000, 3500, 3200]`
and the pointer is at screen `(3, 0)`. -/
theorem mouseCallBackFunc_report_witness :
    ∃ value : Nat, [3000, 4000, 3500, 3200][1]? = some value ∧
      mouseCallBackFunc (acquire Platform.saturating State.init (framePoll (-1)))
          EVENT_MOUSEMOVE 3 0 none
        = some { acquire Platform.saturating State.init (framePoll (-1)) with
            log := (acquire Platform.saturating State.init (framePoll (-1))).log
              ++ [Msg.temp (temperatureOf value) value 3000 4000] } := by
  obtain ⟨⟨v, h1, _, _, _, _, _, h2⟩, _⟩ :=
    mouseCallBackFunc_report Platform.saturating State.init (framePoll (-1))
      [3000, 4000, 3500, 3200] 3 0 none rfl (by decide) (by intro h; cases h) (by decide)
      (by decide) (by decide) (by decide) (by norm_num) (by norm_num)
  exact ⟨v, h1, h2⟩

/-- Claim C6. `main` exits with a non-zero status exactly when the `enableRadiometry(true)`
request of line 94 is answered with something other than `LEP_OK`, whatever the answers to
the gain-mode requests and the three requests of `set_rgb_mode`; it then returns
`EXIT_FAILURE` without having asked the driver for any frame. Otherwise the run enters the
loop, and once the loop has ended through `close` it exits with `EXIT_SUCCESS`. -/
theorem main_exit (pf : Platform) (d : Startup) (polls : List Poll) :
    ((∃ c, (main pf d polls).exitCode = some c ∧ c ≠ 0) ↔ d.radiometry ≠ LEP_OK) ∧
    (d.radiometry ≠ LEP_OK →
      (main pf d polls).exitCode = some EXIT_FAILURE ∧
      DriverCall.getLastFrame16 ∉ (main pf d polls).st.calls) ∧
    (d.radiometry = LEP_OK →
      (main pf d polls).st = loop pf (startup d) polls ∧
      ((main pf d polls).st.close = true → (main pf d polls).exitCode = some EXIT_SUCCESS) ∧
      ((main pf d polls).st.close = false → (main pf d polls).exitCode = none)) := by
  obtain ⟨_, _, _, hcalls⟩ := startup_fields d
  by_cases h : d.radiometry = LEP_OK
  · have hm : main pf d polls
        = { exitCode := if (loop pf (startup d) polls).close then some EXIT_SUCCESS else none,
            st := loop pf (startup d) polls } := by
      unfold main
      simp [h]
    rw [hm]
    refine ⟨?_, fun hn => absurd h hn, fun _ => ⟨rfl, ?_, ?_⟩⟩
    · constructor
      · rintro ⟨c, hc, hne⟩
        simp only at hc
        split_ifs at hc
        · simp only [Option.some.injEq] at hc
          exact absurd hc.symm hne
      · intro hn; exact absurd h hn
    · intro hc
      simp only at hc ⊢
      rw [if_pos hc]
    · intro hc
      simp only at hc ⊢
      rw [hc]
      simp
  · have hm : main pf d polls
        = { exitCode := some EXIT_FAILURE
            st := { startup d with
              log := (startup d).log ++ [Msg.err "Failed to enable radiometry!"] } } := by
      unfold main
      simp [h]
    rw [hm]
    refine ⟨⟨fun _ => h, fun _ => ⟨EXIT_FAILURE, rfl, by decide⟩⟩, fun _ => ⟨rfl, hcalls⟩,
      fun hn => absurd hn h⟩

/-- Witness of C6: a refused radiometry request gives `EXIT_FAILURE` with no frame
requested; an accepted one followed by a frame shown while `q` is pressed gives
`EXIT_SUCCESS`. -/
theorem main_exit_witness :
    ((main Platform.saturating failStartup [framePoll (-1)]).exitCode = some EXIT_FAILURE ∧
      DriverCall.getLastFrame16 ∉
        (main Platform.saturating failStartup [framePoll (-1)]).st.calls) ∧
    (main Platform.saturating okStartup [framePoll (keyCode 'q')]).exitCode
      = some EXIT_SUCCESS := by
  refine ⟨(main_exit Platform.saturating failStartup [framePoll (-1)]).2.1 (by decide), ?_⟩
  obtain ⟨hst, hc, _⟩ :=
    (main_exit Platform.saturating okStartup [framePoll (keyCode 'q')]).2.2 (by decide)
  apply hc
  rw [hst]
  decide

/-- Claim C7. For the key returned by `waitKey` in an iteration: `f` sends exactly the
standard flat-field command, `F` exactly the radiometric one, `q` and `Q` set `close` and
send nothing, every other key code sends nothing and leaves `close` as it was; and
`keyboard_handler` never changes `close`, whatever the driver answers. -/
theorem keyStep_commands (st : State) (key res : Int) :
    (key = keyCode 'f' →
      (keyStep st key res).calls = st.calls ++ [DriverCall.doFFC] ∧
      (keyStep st key res).close = st.close) ∧
    (key = keyCode 'F' →
      (keyStep st key res).calls = st.calls ++ [DriverCall.doRadFFC] ∧
      (keyStep st key res).close = st.close) ∧
    (key = keyCode 'q' ∨ key = keyCode 'Q' →
      (keyStep st key res).close = true ∧ (keyStep st key res).calls = st.calls) ∧
    (key ≠ keyCode 'f' → key ≠ keyCode 'F' → key ≠ keyCode 'q' → key ≠ keyCode 'Q' →
      (keyStep st key res).calls = st.calls ∧ (keyStep st key res).close = st.close) ∧
    (keyboard_handler st key res).close = st.close := by
  refine ⟨?_, ?_, ?_, ?_, keyboard_handler_close st key res⟩
  · intro h; subst h
    by_cases hr : res = LEP_OK <;> simp [keyStep, keyboard_handler, keyCode, hr]
  · intro h; subst h
    by_cases hr : res = LEP_OK <;> simp [keyStep, keyboard_handler, keyCode, hr]
  · intro h
    rcases h with h | h <;> subst h <;> simp [keyStep, keyboard_handler, keyCode]
  · intro h1 h2 h3 h4
    simp [keyStep, keyboard_handler, h1, h2, h3, h4]

/-- Witness of C7 at the key `f` with a failing driver answer. -/
theorem keyStep_commands_witness :
    (keyStep State.init (keyCode 'f') (-1)).calls = State.init.calls ++ [DriverCall.doFFC] ∧
    (keyStep State.init (keyCode 'f') (-1)).close = State.init.close :=
  (keyStep_commands State.init (keyCode 'f') (-1)).1 rfl

/-- Counterexample to C8: when the driver rejects the flat-field correction (answer -1),
`keyboard_handler` writes nothing, for `f` and for `F`. -/
theorem keyboard_handler_failure_silent :
    (keyboard_handler State.init (keyCode 'f') (-1)).log = [] ∧
    (keyboard_handler State.init (keyCode 'F') (-1)).log = [] := by
  decide

/-- Claim C8, amended. For both flat-field commands `keyboard_handler` reports the
outcome only on success: the answer `LEP_OK` adds one completion line, any other answer
adds nothing. In both cases `close` is unchanged, so the loop continues. -/
theorem keyboard_handler_reports_success (st : State) (res : Int) :
    (res = LEP_OK →
      (keyboard_handler st (keyCode 'f') res).log = st.log ++ [Msg.out " * FFC completed"] ∧
      (keyboard_handler st (keyCode 'F') res).log
        = st.log ++ [Msg.out " * Radiometry FFC completed"]) ∧
    (res ≠ LEP_OK →
      (keyboard_handler st (keyCode 'f') res).log = st.log ∧
      (keyboard_handler st (keyCode 'F') res).log = st.log) ∧
    (keyboard_handler st (keyCode 'f') res).close = st.close ∧
    (keyboard_handler st (keyCode 'F') res).close = st.close := by
  refine ⟨?_, ?_, keyboard_handler_close st _ res, keyboard_handler_close st _ res⟩
  · intro h
    simp [keyboard_handler, keyCode, h]
  · intro h
    simp [keyboard_handler, keyCode, h]

/-- Witness of C8 (amended): an accepted standard flat-field correction is reported. -/
theorem keyboard_handler_reports_success_witness :
    (keyboard_handler State.init (keyCode 'f') 0).log
      = State.init.log ++ [Msg.out " * FFC completed"] :=
  ((keyboard_handler_reports_success State.init 0).1 rfl).1

/-- Counterexample to C9: the first iteration, with the driver returning no frame,
already allocates the buffers (120 x 160) and marks the loop initialized. -/
theorem iteration_allocates_without_frame :
    emptyPoll.data = none ∧ State.init.initialized = false ∧
    (iteration Platform.saturating State.init emptyPoll).initialized = true ∧
    (iteration Platform.saturating State.init emptyPoll).allocs = [(120, 160)] := by
  decide

/-- Claim C9, amended. The acquisition loop allocates its frame buffers exactly once, in
its first iteration, whether or not the driver returned a frame in it, sized to the height
and width held by the out-parameters of that first poll; no later iteration allocates, and
a run without iterations allocates nothing. -/
theorem main_allocates_first_iteration (pf : Platform) (d : Startup) (p : Poll)
    (ps : List Poll) (h : d.radiometry = LEP_OK) :
    (main pf d (p :: ps)).st.allocs = [(p.h, p.w)] ∧
    (main pf d (p :: ps)).st.initialized = true ∧
    (iteration pf (startup d) p).allocs = [(p.h, p.w)] ∧
    (main pf d []).st.allocs = [] := by
  obtain ⟨hclose, hinit, hallocs, _⟩ := startup_fields d
  have hm : ∀ polls, (main pf d polls).st = loop pf (startup d) polls := by
    intro polls
    unfold main
    simp [h]
  obtain ⟨i1, i2⟩ := acquire_allocs pf (startup d) p
  obtain ⟨_, _, _, h4, h5, _, _⟩ := iteration_frame pf (startup d) p
  have hit : (iteration pf (startup d) p).allocs = [(p.h, p.w)] := by
    rw [h4, i2, hinit, hallocs]; simp
  obtain ⟨r1, r2⟩ := loop_initialized pf ps (iteration pf (startup d) p) (by rw [h5, i1])
  have hl : loop pf (startup d) (p :: ps) = loop pf (iteration pf (startup d) p) ps := by
    conv_lhs => unfold loop
    rw [hclose]; simp
  refine ⟨?_, ?_, hit, ?_⟩
  · rw [hm, hl, r1, hit]
  · rw [hm, hl, r2]
  · rw [hm]; unfold loop; exact hallocs

/-- Witness of C9 (amended): a first poll without a frame, then a frame. -/
theorem main_allocates_first_iteration_witness :
    (main Platform.saturating okStartup [emptyPoll, framePoll (-1)]).st.allocs
      = [(120, 160)] :=
  (main_allocates_first_iteration Platform.saturating okStartup emptyPoll [framePoll (-1)]
    (by decide)).1

/-- Claim C10. In an iteration in which the driver delivers a frame, the 8-bit image the
loop computes inline and hands to the display (recorded before magnification, with the
factor 3) equals `normalizeFrame` of the frame buffer with the reported `min`/`max`; the
buffer is the delivered frame when its size is the buffer's. -/
theorem iteration_dispFrame_eq_normalizeFrame (pf : Platform) (st : State) (p : Poll)
    (data16 : List Nat) (h : p.data = some data16) :
    (iteration pf st p).dispFrame
      = normalizeFrame pf (iteration pf st p).frame16 p.min p.max ∧
    (iteration pf st p).shown
      = st.shown ++ [(normalizeFrame pf (iteration pf st p).frame16 p.min p.max, img_scale_fact)] ∧
    (data16.length = p.w * p.h →
      (st.initialized = true → st.frame16.data.length = p.w * p.h) →
      (iteration pf st p).frame16.data = data16) := by
  obtain ⟨h1, h2, h3, _, _, _, _⟩ := iteration_frame pf st p
  obtain ⟨a1, a2, _, _, a5, _, _⟩ := acquire_frame pf st p data16 h
  refine ⟨?_, ?_, ?_⟩
  · rw [h1, h2, a1]
  · rw [h1, h3, a2]
  · intro hlen hbuf
    rw [h1, a5]
    cases hi : st.initialized
    · simp only [Bool.false_eq_true, if_false]
      exact memcpy_full _ _ _ hlen (by rw [List.length_replicate, Nat.mul_comm])
    · simp only [if_true]
      exact memcpy_full _ _ _ hlen (hbuf hi)

/-- Witness of C10 on the first iteration with the 2 x 2 frame. -/
theorem iteration_dispFrame_eq_normalizeFrame_witness :
    (iteration Platform.saturating State.init (framePoll (-1))).dispFrame
      = normalizeFrame Platform.saturating
          (iteration Platform.saturating State.init (framePoll (-1))).frame16 3000 4000 :=
  (iteration_dispFrame_eq_normalizeFrame Platform.saturating State.init (framePoll (-1))
    [3000, 4000, 3500, 3200] rfl).1

end CheckFever
